import Mathlib

/-!
# Verification of rsc/gocachelogstat

A shallow embedding of the two parser variants of gocachelogstat
(src/main.go, the simple variant, and src/unnamed/part_000, the extended
delta-tracking variant) together with proofs about the properties the
specification claims.

The Go program reads the build-cache log, one event per line, and folds
each line into a mutable state: four byte-total accumulators, reuse-latency
sample slices, a first/last timestamp pair, and a registry (map from string
key to `*entry`).  Pointers are modelled by an explicit heap (a list of
entries addressed by index); `new(entry)` appends to the heap, the map
stores heap addresses, and a nil pointer is `Option.none`.  `log.Fatalf`
is modelled by `Except.error`; a nil-pointer dereference, which would be a
runtime panic in Go, is modelled by the distinguished error `Err.nilDeref`.
Machine integers (`int64` and `int`, which is 64-bit here) are modelled by
`Int`; `strconv.ParseInt` keeps its int64 range check.  None of the claims
below depends on wrap-around behaviour of the accumulators.
-/

set_option maxHeartbeats 1000000

namespace GoCacheLogStat

/-- Model of Go `strings.Fields` on a list of characters: split into maximal
runs of non-whitespace characters.  The accumulator holds the current word,
reversed. -/
def fieldsAux : List Char → List Char → List (List Char)
  | [], acc => if acc.isEmpty then [] else [acc.reverse]
  | c :: cs, acc =>
    if c.isWhitespace then
      if acc.isEmpty then fieldsAux cs [] else acc.reverse :: fieldsAux cs []
    else fieldsAux cs (c :: acc)

/-- Model of `strings.Fields(string(line))`: the maximal whitespace-separated
words of the line. -/
def fields (s : String) : List String := (fieldsAux s.data []).map String.mk

/-- Accumulate decimal digits; `none` when a non-digit character appears. -/
def digitsToNat (acc : Nat) : List Char → Option Nat
  | [] => some acc
  | c :: cs =>
    if '0' ≤ c ∧ c ≤ '9' then digitsToNat (acc * 10 + (c.toNat - '0'.toNat)) cs
    else none

/-- Model of `strconv.ParseInt(s, 10, 64)`: optional sign, at least one
decimal digit, and the int64 range check (out-of-range input is an error in
Go, hence `none` here). -/
def parseInt (s : String) : Option Int :=
  let p : Bool × List Char :=
    match s.data with
    | '-' :: rest => (true, rest)
    | '+' :: rest => (false, rest)
    | cs => (false, cs)
  match p.2 with
  | [] => none
  | ds =>
    match digitsToNat 0 ds with
    | none => none
    | some n =>
      let v : Int := if p.1 then -(n : Int) else (n : Int)
      if -(2 ^ 63) ≤ v ∧ v ≤ 2 ^ 63 - 1 then some v else none

/-- The fatal outcomes of processing a line.  The three `bad*` constructors
correspond to the three `log.Fatalf` calls of the loop; `nilDeref` models the
runtime panic a nil-pointer dereference would be (proved unreachable). -/
inductive Err where
  | badLine (line : String)
  | badTime (line : String)
  | badSize (line : String)
  | nilDeref
deriving Repr, DecidableEq

/-- The percentile indices computed by printCache (src/main.go lines
136-142, src/unnamed/part_000 lines 143-149): the loop indices `len*i/100`
for i = 10, 20, ..., 90, then `len*95/100`, `len*99/100` and `len*999/1000`
(99.9%), all with truncating Nat division exactly as in Go. -/
def pctIdx (len : Nat) : List Nat :=
  [len * 10 / 100, len * 20 / 100, len * 30 / 100, len * 40 / 100, len * 50 / 100,
   len * 60 / 100, len * 70 / 100, len * 80 / 100, len * 90 / 100,
   len * 95 / 100, len * 99 / 100, len * 999 / 1000]

/-- Timestamp of the first line with a non-empty field list, as the spec
describes it ("the timestamp of the first non-empty line"). -/
def firstNonEmptyTime : List String → Option Int
  | [] => none
  | l :: ls =>
    if fields l = [] then firstNonEmptyTime ls
    else parseInt ((fields l).getD 0 "")

/-- Timestamp of the last line with a non-empty field list. -/
def lastNonEmptyTime : List String → Option Int
  | [] => none
  | l :: ls =>
    match lastNonEmptyTime ls with
    | some t => some t
    | none =>
      if fields l = [] then none
      else parseInt ((fields l).getD 0 "")

/-- A line that passes all of the loop's validation: it is blank, or it has
at least 3 fields, exactly 5 when it is a put, a parsable timestamp, and
(for a put) a parsable size. -/
def lineOK (l : String) : Prop :=
  fields l = [] ∨
  (3 ≤ (fields l).length ∧
   ((fields l).getD 1 "" = "put" → (fields l).length = 5) ∧
   parseInt ((fields l).getD 0 "") ≠ none ∧
   ((fields l).getD 1 "" = "put" → parseInt ((fields l).getD 4 "") ≠ none))

instance (l : String) : Decidable (lineOK l) := by
  unfold lineOK; infer_instance

/-- A line whose timestamp field, when it parses at all, is nonzero.  Both
sentinel-based variants behave regularly only on such lines. -/
def tsNZ (l : String) : Prop :=
  parseInt ((fields l).getD 0 "") ≠ some 0

instance (l : String) : Decidable (tsNZ l) := by
  unfold tsNZ; infer_instance

namespace Simple

/-- The `entry` struct of src/main.go.  `data` is a pointer, modelled as an
optional heap address. -/
structure entry where
  created : Int
  size : Int
  reused : Bool
  data : Option Nat
deriving Repr, DecidableEq

/-- The mutable state of `main`'s scanning loop in src/main.go: the
accumulators, sample slices, time range, the `cache` map (string key to
`*entry`, modelled as an association list of heap addresses) and the heap of
allocated entries. -/
structure State where
  totalA : Int
  totalReusedA : Int
  totalD : Int
  totalReusedD : Int
  reuseA : List Int
  reuseD : List Int
  firstTime : Int
  lastTime : Int
  cache : List (String × Nat)
  heap : List entry
deriving Repr, DecidableEq

/-- Go zero values: every accumulator 0, slices nil, map empty. -/
def initState : State :=
  { totalA := 0, totalReusedA := 0, totalD := 0, totalReusedD := 0
    reuseA := [], reuseD := [], firstTime := 0, lastTime := 0
    cache := [], heap := [] }

/-- Lines 72-75 of src/main.go: `if firstTime == 0 { firstTime = t };
lastTime = t`. -/
def touch (s : State) (t : Int) : State :=
  { s with firstTime := if s.firstTime = 0 then t else s.firstTime, lastTime := t }

/-- Lines 82-89 of src/main.go: look up `cache[dataKey+"-d"]`; if nil,
allocate a data entry with `created = t`, `size = size`, store it under the
key and add `size` to `totalD`.  Returns the new state and the address of
the data entry (the pointer `e1`). -/
def putData (s : State) (t size : Int) (dKey : String) : State × Nat :=
  match List.lookup (dKey ++ "-d") s.cache with
  | some a => (s, a)
  | none =>
    ({ s with heap := s.heap ++ [{ created := t, size := size, reused := false, data := none }]
              cache := (dKey ++ "-d", s.heap.length) :: s.cache
              totalD := s.totalD + size },
     s.heap.length)

/-- Lines 90-98 of src/main.go: look up `cache[actionKey+"-a"]`; if nil,
allocate an action entry with `created = t`, `size = 154`, `data` pointing
at the data entry address `d`, store it and add 154 to `totalA`. -/
def putAction (s : State) (t : Int) (d : Nat) (aKey : String) : State :=
  match List.lookup (aKey ++ "-a") s.cache with
  | some _ => s
  | none =>
    { s with heap := s.heap ++ [{ created := t, size := 154, reused := false, data := some d }]
             cache := (aKey ++ "-a", s.heap.length) :: s.cache
             totalA := s.totalA + 154 }

/-- The whole `case "put"` body (lines 82-98): data entry first, then the
action entry, which receives the data entry's address. -/
def doPut (s : State) (t size : Int) (aKey dKey : String) : State :=
  putAction (putData s t size dKey).1 t (putData s t size dKey).2 aKey

/-- Lines 105-108 of src/main.go: `if !e.reused { e.reused = true;
totalReusedA += e.size }` for the action entry at address `a` whose current
value is `e`. -/
def reuseAction (s : State) (a : Nat) (e : entry) : State :=
  if e.reused then s
  else { s with heap := s.heap.set a { e with reused := true }
                totalReusedA := s.totalReusedA + e.size }

/-- Lines 109-112 of src/main.go: the same for the data entry at address
`d` with current value `e1`. -/
def reuseData (s : State) (d : Nat) (e1 : entry) : State :=
  if e1.reused then s
  else { s with heap := s.heap.set d { e1 with reused := true }
                totalReusedD := s.totalReusedD + e1.size }

/-- The whole `case "get", "miss"` body (lines 100-114): look up the action
entry (skip the line if absent), mark action and data entries reused
(crediting their sizes once), then append the two latency samples
`t - e.created` and `t - e.data.created`.  Dereferences read the heap at the
moment of the access, as the Go code does; only the `reused` field is
mutated in between, so the snapshots `e`, `e1` keep `created`, `size` and
`data` accurate. -/
def doGet (s : State) (t : Int) (aKey : String) : Except Err State :=
  match List.lookup (aKey ++ "-a") s.cache with
  | none => .ok s
  | some a =>
    match s.heap[a]? with
    | none => .error .nilDeref
    | some e =>
      match e.data with
      | none => .error .nilDeref
      | some d =>
        match (reuseAction s a e).heap[d]? with
        | none => .error .nilDeref
        | some e1 =>
          .ok { reuseData (reuseAction s a e) d e1 with
                  reuseA := (reuseData (reuseAction s a e) d e1).reuseA ++ [t - e.created]
                  reuseD := (reuseData (reuseAction s a e) d e1).reuseD ++ [t - e1.created] }

/-- One iteration of the scanning loop of src/main.go (lines 60-116):
split the line into fields, skip blank lines, validate the field counts,
parse the timestamp, update the time range, and dispatch on the event kind
(unrecognized kinds fall through the switch with no effect). -/
def processLine (s : State) (line : String) : Except Err State :=
  if (fields line).length = 0 then .ok s
  else if (fields line).length < 3 ∨
      ((fields line).getD 1 "" = "put" ∧ (fields line).length ≠ 5) then
    .error (.badLine line)
  else
    match parseInt ((fields line).getD 0 "") with
    | none => .error (.badTime line)
    | some t =>
      if (fields line).getD 1 "" = "put" then
        match parseInt ((fields line).getD 4 "") with
        | none => .error (.badSize line)
        | some size =>
          .ok (doPut (touch s t) t size ((fields line).getD 2 "") ((fields line).getD 3 ""))
      else if (fields line).getD 1 "" = "get" ∨ (fields line).getD 1 "" = "miss" then
        doGet (touch s t) t ((fields line).getD 2 "")
      else .ok (touch s t)

/-- The scanning loop folded over a list of lines; the first fatal error
aborts the whole run. -/
def processLines (s : State) : List String → Except Err State
  | [] => .ok s
  | l :: ls =>
    match processLine s l with
    | .ok s' => processLines s' ls
    | .error e => .error e

/-- Scan a whole log (as its list of lines) from the zero state. -/
def scanLog (lines : List String) : Except Err State :=
  processLines initState lines

/-- The numeric content of a printCache report: either the "no reuse"
branch, or the raw samples selected at the percentile indices followed by
the `reuse[len(reuse)-1]` maximum line.  The text formatting and the
float64 division by 86400 that converts raw (second-valued) samples to days
are presentation only and are not modelled; the reported day values are the
raw values here each divided by the same positive constant, which preserves
order and equality. -/
inductive Report where
  | noReuse
  | percentiles (vals : List Int) (maxv : Int)
deriving Repr, DecidableEq

/-- printCache of src/main.go lines 130-145 (numeric content).  The Go code
indexes `reuse[j]` directly; `getD j 0` is that access, justified by the
in-bounds theorem below. -/
def printCache (reuse : List Int) : Report :=
  if reuse.length = 0 then .noReuse
  else
    .percentiles ((pctIdx reuse.length).map fun j => reuse.getD j 0)
      (reuse.getD (reuse.length - 1) 0)

/-- main sorts each sample slice ascending with `sort.Ints` before printing
(src/main.go lines 118-119 and 126-127). -/
def report (reuse : List Int) : Report :=
  printCache (List.insertionSort (· ≤ ·) reuse)

/-- The contribution of one heap entry to `totalReusedA`: its size if it is
an action entry (its `data` pointer is set — only action entries ever get
one) that has been marked reused, else 0. -/
def entryWeightA (e : entry) : Int :=
  if e.data.isSome = true ∧ e.reused = true then e.size else 0

/-- The contribution of one heap entry to `totalReusedD`: its size if it is
a data entry (nil `data` pointer) marked reused, else 0. -/
def entryWeightD (e : entry) : Int :=
  if e.data = none ∧ e.reused = true then e.size else 0

/-- Sum of the sizes of the reused action entries of the heap. -/
def reusedSumA (h : List entry) : Int := (h.map entryWeightA).sum

/-- Sum of the sizes of the reused data entries of the heap. -/
def reusedSumD (h : List entry) : Int := (h.map entryWeightD).sum

/-- The structural well-formedness invariant of the scanning state: every
registry binding under an action key ("-a" suffix) is a valid heap address
holding an entry with a non-nil `data` pointer; every binding under a data
key ("-d" suffix) holds an entry with nil `data`; and every `data` pointer
stored in any heap entry is a valid address of an entry with nil `data`. -/
structure WF (s : State) : Prop where
  cacheA : ∀ k a, List.lookup (k ++ "-a") s.cache = some a →
    ∃ e : entry, s.heap[a]? = some e ∧ e.data ≠ none
  cacheD : ∀ k d, List.lookup (k ++ "-d") s.cache = some d →
    ∃ e : entry, s.heap[d]? = some e ∧ e.data = none
  ptrOK : ∀ (a : Nat) (e : entry), s.heap[a]? = some e → ∀ d, e.data = some d →
    ∃ e1 : entry, s.heap[d]? = some e1 ∧ e1.data = none

/-- The reuse-accounting invariant: the two total-reused accumulators are
exactly the sums of the sizes of the currently reused action (resp. data)
entries — each entry counted once. -/
def SumInv (s : State) : Prop :=
  s.totalReusedA = reusedSumA s.heap ∧ s.totalReusedD = reusedSumD s.heap

/-- How one scanning step may change an entry: `created`, `size` and the
`data` pointer are immutable after construction, and the `reused` flag can
only go from false to true, never back. -/
def entrySim (e e' : entry) : Prop :=
  e'.created = e.created ∧ e'.size = e.size ∧ e'.data = e.data ∧
  (e.reused = true → e'.reused = true)

/-- The heap evolves by preserving every existing entry up to `entrySim`
(new entries may be appended). -/
def heapSim (h h' : List entry) : Prop :=
  ∀ (i : Nat) (e : entry), h[i]? = some e → ∃ e' : entry, h'[i]? = some e' ∧ entrySim e e'

end Simple

namespace Ext

/-- The `entry` struct of src/unnamed/part_000.  The `reused` field is
declared there but never written by that variant's code (the `lastReused`
timestamp, with 0 meaning "never reused", plays its role). -/
structure entry where
  created : Int
  lastReused : Int
  size : Int
  reused : Bool
  data : Option Nat
deriving Repr, DecidableEq

/-- The mutable scanning state of src/unnamed/part_000's `main`: as the
simple variant plus the two delta sample slices. -/
structure State where
  totalA : Int
  totalReusedA : Int
  totalD : Int
  totalReusedD : Int
  reuseA : List Int
  reuseD : List Int
  reuseDeltaA : List Int
  reuseDeltaD : List Int
  firstTime : Int
  lastTime : Int
  cache : List (String × Nat)
  heap : List entry
deriving Repr, DecidableEq

/-- Go zero values. -/
def initState : State :=
  { totalA := 0, totalReusedA := 0, totalD := 0, totalReusedD := 0
    reuseA := [], reuseD := [], reuseDeltaA := [], reuseDeltaD := []
    firstTime := 0, lastTime := 0, cache := [], heap := [] }

/-- Lines 72-75 of src/unnamed/part_000 (identical to the simple variant). -/
def touch (s : State) (t : Int) : State :=
  { s with firstTime := if s.firstTime = 0 then t else s.firstTime, lastTime := t }

/-- Lines 82-89 of src/unnamed/part_000; `new(entry)` zeroes `lastReused`. -/
def putData (s : State) (t size : Int) (dKey : String) : State × Nat :=
  match List.lookup (dKey ++ "-d") s.cache with
  | some a => (s, a)
  | none =>
    ({ s with heap := s.heap ++
                [{ created := t, lastReused := 0, size := size, reused := false, data := none }]
              cache := (dKey ++ "-d", s.heap.length) :: s.cache
              totalD := s.totalD + size },
     s.heap.length)

/-- Lines 90-98 of src/unnamed/part_000. -/
def putAction (s : State) (t : Int) (d : Nat) (aKey : String) : State :=
  match List.lookup (aKey ++ "-a") s.cache with
  | some _ => s
  | none =>
    { s with heap := s.heap ++
               [{ created := t, lastReused := 0, size := 154, reused := false, data := some d }]
             cache := (aKey ++ "-a", s.heap.length) :: s.cache
             totalA := s.totalA + 154 }

/-- The `case "put"` body of src/unnamed/part_000 (lines 82-98). -/
def doPut (s : State) (t size : Int) (aKey dKey : String) : State :=
  putAction (putData s t size dKey).1 t (putData s t size dKey).2 aKey

/-- The value an entry holds right after the `if e.lastReused == 0 {
... e.lastReused = e.created }` block of lines 105-108 / 109-112 ran on
it: `lastReused` is initialized to `created` on first reuse. -/
def afterFirstReuse (e : entry) : entry :=
  if e.lastReused = 0 then { e with lastReused := e.created } else e

/-- Lines 105-108 of src/unnamed/part_000: `if e.lastReused == 0 {
totalReusedA += e.size; e.lastReused = e.created }` at address `a`. -/
def reuseActionX (s : State) (a : Nat) (e : entry) : State :=
  if e.lastReused = 0 then
    { s with totalReusedA := s.totalReusedA + e.size
             heap := s.heap.set a (afterFirstReuse e) }
  else s

/-- Lines 109-112 of src/unnamed/part_000: the same for the data entry at
address `d`. -/
def reuseDataX (s : State) (d : Nat) (e1 : entry) : State :=
  if e1.lastReused = 0 then
    { s with totalReusedD := s.totalReusedD + e1.size
             heap := s.heap.set d (afterFirstReuse e1) }
  else s

/-- The `case "get", "miss"` body of src/unnamed/part_000 (lines 100-120):
after the two first-reuse blocks, lines 113-116 append the four samples —
the delta samples read `e.lastReused` / `e.data.lastReused` *after* those
blocks possibly initialized them — and lines 118-119 then store `t` into
both `lastReused` fields.  Since only `lastReused` was mutated since the
snapshots `e`, `e1` were read, the entry at address `a` after line 118 is
`{ e with lastReused := t }`, and similarly at `d`. -/
def doGet (s : State) (t : Int) (aKey : String) : Except Err State :=
  match List.lookup (aKey ++ "-a") s.cache with
  | none => .ok s
  | some a =>
    match s.heap[a]? with
    | none => .error .nilDeref
    | some e =>
      match e.data with
      | none => .error .nilDeref
      | some d =>
        match (reuseActionX s a e).heap[d]? with
        | none => .error .nilDeref
        | some e1 =>
          .ok { reuseDataX (reuseActionX s a e) d e1 with
                  reuseA := (reuseDataX (reuseActionX s a e) d e1).reuseA ++ [t - e.created]
                  reuseD := (reuseDataX (reuseActionX s a e) d e1).reuseD ++ [t - e1.created]
                  reuseDeltaA := (reuseDataX (reuseActionX s a e) d e1).reuseDeltaA ++
                    [t - (afterFirstReuse e).lastReused]
                  reuseDeltaD := (reuseDataX (reuseActionX s a e) d e1).reuseDeltaD ++
                    [t - (afterFirstReuse e1).lastReused]
                  heap := (((reuseDataX (reuseActionX s a e) d e1).heap.set a
                             ({ e with lastReused := t } : entry)).set d
                             ({ e1 with lastReused := t } : entry)) }

/-- One iteration of the scanning loop of src/unnamed/part_000 (lines
60-121); the validation is identical to the simple variant's. -/
def processLine (s : State) (line : String) : Except Err State :=
  if (fields line).length = 0 then .ok s
  else if (fields line).length < 3 ∨
      ((fields line).getD 1 "" = "put" ∧ (fields line).length ≠ 5) then
    .error (.badLine line)
  else
    match parseInt ((fields line).getD 0 "") with
    | none => .error (.badTime line)
    | some t =>
      if (fields line).getD 1 "" = "put" then
        match parseInt ((fields line).getD 4 "") with
        | none => .error (.badSize line)
        | some size =>
          .ok (doPut (touch s t) t size ((fields line).getD 2 "") ((fields line).getD 3 ""))
      else if (fields line).getD 1 "" = "get" ∨ (fields line).getD 1 "" = "miss" then
        doGet (touch s t) t ((fields line).getD 2 "")
      else .ok (touch s t)

/-- The extended scanning loop folded over the lines. -/
def processLines (s : State) : List String → Except Err State
  | [] => .ok s
  | l :: ls =>
    match processLine s l with
    | .ok s' => processLines s' ls
    | .error e => .error e

/-- Scan a whole log with the extended variant. -/
def scanLog (lines : List String) : Except Err State :=
  processLines initState lines

/-- The indices the extended printCache uses into the *delta* slice
(src/unnamed/part_000 lines 151-158): the 10..90 loop uses
`len(reuseDelta)*i/100` (line 153), but the 95/99/99.9 lines index
`reuseDelta` with `len(reuse)*p/q` (lines 156-158). -/
def deltaIdx (lenR lenD : Nat) : List Nat :=
  [lenD * 10 / 100, lenD * 20 / 100, lenD * 30 / 100, lenD * 40 / 100, lenD * 50 / 100,
   lenD * 60 / 100, lenD * 70 / 100, lenD * 80 / 100, lenD * 90 / 100,
   lenR * 95 / 100, lenR * 99 / 100, lenR * 999 / 1000]

/-- Numeric content of the extended printCache (src/unnamed/part_000 lines
137-161): the creation-latency percentiles as in the simple variant, plus
the delta percentiles; the final delta line (line 159) indexes
`reuseDelta[len(reuse)-1]`. -/
inductive Report where
  | noReuse
  | percentiles (vals : List Int) (maxv : Int) (dvals : List Int) (dmax : Int)
deriving Repr, DecidableEq

def printCache (reuse reuseDelta : List Int) : Report :=
  if reuse.length = 0 then .noReuse
  else
    .percentiles
      ((pctIdx reuse.length).map fun j => reuse.getD j 0)
      (reuse.getD (reuse.length - 1) 0)
      ((deltaIdx reuse.length reuseDelta.length).map fun j => reuseDelta.getD j 0)
      (reuseDelta.getD (reuse.length - 1) 0)

/-- The contribution of one heap entry to `totalReusedA` in the extended
variant, whose reused flag is the `lastReused ≠ 0` sentinel. -/
def entryWeightA (e : entry) : Int :=
  if e.data.isSome = true ∧ e.lastReused ≠ 0 then e.size else 0

/-- The contribution of one heap entry to `totalReusedD` in the extended
variant. -/
def entryWeightD (e : entry) : Int :=
  if e.data = none ∧ e.lastReused ≠ 0 then e.size else 0

/-- Sum of the sizes of the sentinel-reused action entries of the heap. -/
def reusedSumA (h : List entry) : Int := (h.map entryWeightA).sum

/-- Sum of the sizes of the sentinel-reused data entries of the heap. -/
def reusedSumD (h : List entry) : Int := (h.map entryWeightD).sum

/-- Well-formedness of the extended-variant registry, identical in shape to
the simple variant's (the timestamps play no role in the pointer
structure): action-key bindings point to valid entries with a non-nil data
pointer, data-key bindings to valid data entries, and every data pointer of
a stored entry is a valid address of a data entry. -/
structure WF (s : State) : Prop where
  cacheA : ∀ k a, List.lookup (k ++ "-a") s.cache = some a →
    ∃ e : entry, s.heap[a]? = some e ∧ e.data ≠ none
  cacheD : ∀ k d, List.lookup (k ++ "-d") s.cache = some d →
    ∃ e : entry, s.heap[d]? = some e ∧ e.data = none
  ptrOK : ∀ (a : Nat) (e : entry), s.heap[a]? = some e → ∀ d, e.data = some d →
    ∃ e1 : entry, s.heap[d]? = some e1 ∧ e1.data = none


end Ext

/-- The correspondence between one simple-variant entry and the extended
entry at the same heap address: identical `created`, `size` and `data`
pointer, and the simple `reused` flag holds exactly when the extended
sentinel `lastReused ≠ 0` does. -/
def entRel (es : Simple.entry) (ex : Ext.entry) : Prop :=
  ex.created = es.created ∧ ex.size = es.size ∧ ex.data = es.data ∧
  (ex.lastReused ≠ 0 ↔ es.reused = true)

/-- Pointwise correspondence of the two heaps. -/
def heapR (hs : List Simple.entry) (hx : List Ext.entry) : Prop :=
  List.Forall₂ entRel hs hx

/-- The coupling between a simple-variant state and an extended-variant
state: all base outputs (totals, base samples, time range) coincide, the
registries are identical, and the heaps correspond pointwise. -/
def StRel (s : Simple.State) (x : Ext.State) : Prop :=
  x.totalA = s.totalA ∧ x.totalReusedA = s.totalReusedA ∧
  x.totalD = s.totalD ∧ x.totalReusedD = s.totalReusedD ∧
  x.reuseA = s.reuseA ∧ x.reuseD = s.reuseD ∧
  x.firstTime = s.firstTime ∧ x.lastTime = s.lastTime ∧
  x.cache = s.cache ∧ heapR s.heap x.heap

namespace Simple

@[simp] theorem touch_firstTime (s : State) (t : Int) :
    (touch s t).firstTime = if s.firstTime = 0 then t else s.firstTime := rfl

@[simp] theorem touch_lastTime (s : State) (t : Int) : (touch s t).lastTime = t := rfl

@[simp] theorem touch_cache (s : State) (t : Int) : (touch s t).cache = s.cache := rfl

@[simp] theorem touch_heap (s : State) (t : Int) : (touch s t).heap = s.heap := rfl

@[simp] theorem touch_totalA (s : State) (t : Int) : (touch s t).totalA = s.totalA := rfl

@[simp] theorem touch_totalD (s : State) (t : Int) : (touch s t).totalD = s.totalD := rfl

@[simp] theorem touch_totalReusedA (s : State) (t : Int) :
    (touch s t).totalReusedA = s.totalReusedA := rfl

@[simp] theorem touch_totalReusedD (s : State) (t : Int) :
    (touch s t).totalReusedD = s.totalReusedD := rfl

@[simp] theorem touch_reuseA (s : State) (t : Int) : (touch s t).reuseA = s.reuseA := rfl

@[simp] theorem touch_reuseD (s : State) (t : Int) : (touch s t).reuseD = s.reuseD := rfl

@[simp] theorem putData_fst_firstTime (s : State) (t sz : Int) (k : String) :
    (putData s t sz k).1.firstTime = s.firstTime := by
  unfold putData; cases h : List.lookup (k ++ "-d") s.cache <;> simp [h]

@[simp] theorem putData_fst_lastTime (s : State) (t sz : Int) (k : String) :
    (putData s t sz k).1.lastTime = s.lastTime := by
  unfold putData; cases h : List.lookup (k ++ "-d") s.cache <;> simp [h]

@[simp] theorem putData_fst_totalA (s : State) (t sz : Int) (k : String) :
    (putData s t sz k).1.totalA = s.totalA := by
  unfold putData; cases h : List.lookup (k ++ "-d") s.cache <;> simp [h]

@[simp] theorem putData_fst_totalReusedA (s : State) (t sz : Int) (k : String) :
    (putData s t sz k).1.totalReusedA = s.totalReusedA := by
  unfold putData; cases h : List.lookup (k ++ "-d") s.cache <;> simp [h]

@[simp] theorem putData_fst_totalReusedD (s : State) (t sz : Int) (k : String) :
    (putData s t sz k).1.totalReusedD = s.totalReusedD := by
  unfold putData; cases h : List.lookup (k ++ "-d") s.cache <;> simp [h]

@[simp] theorem putData_fst_reuseA (s : State) (t sz : Int) (k : String) :
    (putData s t sz k).1.reuseA = s.reuseA := by
  unfold putData; cases h : List.lookup (k ++ "-d") s.cache <;> simp [h]

@[simp] theorem putData_fst_reuseD (s : State) (t sz : Int) (k : String) :
    (putData s t sz k).1.reuseD = s.reuseD := by
  unfold putData; cases h : List.lookup (k ++ "-d") s.cache <;> simp [h]

@[simp] theorem putAction_firstTime (s : State) (t : Int) (d : Nat) (k : String) :
    (putAction s t d k).firstTime = s.firstTime := by
  unfold putAction; cases h : List.lookup (k ++ "-a") s.cache <;> simp [h]

@[simp] theorem putAction_lastTime (s : State) (t : Int) (d : Nat) (k : String) :
    (putAction s t d k).lastTime = s.lastTime := by
  unfold putAction; cases h : List.lookup (k ++ "-a") s.cache <;> simp [h]

@[simp] theorem putAction_totalD (s : State) (t : Int) (d : Nat) (k : String) :
    (putAction s t d k).totalD = s.totalD := by
  unfold putAction; cases h : List.lookup (k ++ "-a") s.cache <;> simp [h]

@[simp] theorem putAction_totalReusedA (s : State) (t : Int) (d : Nat) (k : String) :
    (putAction s t d k).totalReusedA = s.totalReusedA := by
  unfold putAction; cases h : List.lookup (k ++ "-a") s.cache <;> simp [h]

@[simp] theorem putAction_totalReusedD (s : State) (t : Int) (d : Nat) (k : String) :
    (putAction s t d k).totalReusedD = s.totalReusedD := by
  unfold putAction; cases h : List.lookup (k ++ "-a") s.cache <;> simp [h]

@[simp] theorem putAction_reuseA (s : State) (t : Int) (d : Nat) (k : String) :
    (putAction s t d k).reuseA = s.reuseA := by
  unfold putAction; cases h : List.lookup (k ++ "-a") s.cache <;> simp [h]

@[simp] theorem putAction_reuseD (s : State) (t : Int) (d : Nat) (k : String) :
    (putAction s t d k).reuseD = s.reuseD := by
  unfold putAction; cases h : List.lookup (k ++ "-a") s.cache <;> simp [h]

@[simp] theorem doPut_firstTime (s : State) (t sz : Int) (a d : String) :
    (doPut s t sz a d).firstTime = s.firstTime := by simp [doPut]

@[simp] theorem doPut_lastTime (s : State) (t sz : Int) (a d : String) :
    (doPut s t sz a d).lastTime = s.lastTime := by simp [doPut]

@[simp] theorem doPut_totalReusedA (s : State) (t sz : Int) (a d : String) :
    (doPut s t sz a d).totalReusedA = s.totalReusedA := by simp [doPut]

@[simp] theorem doPut_totalReusedD (s : State) (t sz : Int) (a d : String) :
    (doPut s t sz a d).totalReusedD = s.totalReusedD := by simp [doPut]

@[simp] theorem doPut_reuseA (s : State) (t sz : Int) (a d : String) :
    (doPut s t sz a d).reuseA = s.reuseA := by simp [doPut]

@[simp] theorem doPut_reuseD (s : State) (t sz : Int) (a d : String) :
    (doPut s t sz a d).reuseD = s.reuseD := by simp [doPut]

@[simp] theorem reuseAction_firstTime (s : State) (a : Nat) (e : entry) :
    (reuseAction s a e).firstTime = s.firstTime := by
  unfold reuseAction; split <;> rfl

@[simp] theorem reuseAction_lastTime (s : State) (a : Nat) (e : entry) :
    (reuseAction s a e).lastTime = s.lastTime := by
  unfold reuseAction; split <;> rfl

@[simp] theorem reuseAction_totalA (s : State) (a : Nat) (e : entry) :
    (reuseAction s a e).totalA = s.totalA := by
  unfold reuseAction; split <;> rfl

@[simp] theorem reuseAction_totalD (s : State) (a : Nat) (e : entry) :
    (reuseAction s a e).totalD = s.totalD := by
  unfold reuseAction; split <;> rfl

@[simp] theorem reuseAction_totalReusedD (s : State) (a : Nat) (e : entry) :
    (reuseAction s a e).totalReusedD = s.totalReusedD := by
  unfold reuseAction; split <;> rfl

@[simp] theorem reuseAction_reuseA (s : State) (a : Nat) (e : entry) :
    (reuseAction s a e).reuseA = s.reuseA := by
  unfold reuseAction; split <;> rfl

@[simp] theorem reuseAction_reuseD (s : State) (a : Nat) (e : entry) :
    (reuseAction s a e).reuseD = s.reuseD := by
  unfold reuseAction; split <;> rfl

@[simp] theorem reuseAction_cache (s : State) (a : Nat) (e : entry) :
    (reuseAction s a e).cache = s.cache := by
  unfold reuseAction; split <;> rfl

@[simp] theorem reuseData_firstTime (s : State) (d : Nat) (e : entry) :
    (reuseData s d e).firstTime = s.firstTime := by
  unfold reuseData; split <;> rfl

@[simp] theorem reuseData_lastTime (s : State) (d : Nat) (e : entry) :
    (reuseData s d e).lastTime = s.lastTime := by
  unfold reuseData; split <;> rfl

@[simp] theorem reuseData_totalA (s : State) (d : Nat) (e : entry) :
    (reuseData s d e).totalA = s.totalA := by
  unfold reuseData; split <;> rfl

@[simp] theorem reuseData_totalD (s : State) (d : Nat) (e : entry) :
    (reuseData s d e).totalD = s.totalD := by
  unfold reuseData; split <;> rfl

@[simp] theorem reuseData_totalReusedA (s : State) (d : Nat) (e : entry) :
    (reuseData s d e).totalReusedA = s.totalReusedA := by
  unfold reuseData; split <;> rfl

@[simp] theorem reuseData_reuseA (s : State) (d : Nat) (e : entry) :
    (reuseData s d e).reuseA = s.reuseA := by
  unfold reuseData; split <;> rfl

@[simp] theorem reuseData_reuseD (s : State) (d : Nat) (e : entry) :
    (reuseData s d e).reuseD = s.reuseD := by
  unfold reuseData; split <;> rfl

@[simp] theorem reuseData_cache (s : State) (d : Nat) (e : entry) :
    (reuseData s d e).cache = s.cache := by
  unfold reuseData; split <;> rfl

theorem doGet_ok_times {s s' : State} {t : Int} {k : String}
    (h : doGet s t k = .ok s') :
    s'.firstTime = s.firstTime ∧ s'.lastTime = s.lastTime := by
  unfold doGet at h
  split at h
  · cases h; exact ⟨rfl, rfl⟩
  · split at h
    · exact Except.noConfusion h
    · split at h
      · exact Except.noConfusion h
      · split at h
        · exact Except.noConfusion h
        · cases h; simp

theorem processLine_times {s s' : State} {l : String}
    (h : processLine s l = .ok s') :
    (fields l = [] ∧ s' = s) ∨
    (∃ t, parseInt ((fields l).getD 0 "") = some t ∧ s'.lastTime = t ∧
      s'.firstTime = (if s.firstTime = 0 then t else s.firstTime)) := by
  unfold processLine at h
  split at h
  · next h0 =>
    left
    cases h
    exact ⟨List.length_eq_zero.mp h0, rfl⟩
  · next h0 =>
    right
    split at h
    · exact Except.noConfusion h
    · split at h
      · exact Except.noConfusion h
      · next t hp =>
        refine ⟨t, hp, ?_⟩
        split at h
        · split at h
          · exact Except.noConfusion h
          · cases h; simp
        · split at h
          · have := doGet_ok_times h
            rw [this.1, this.2]
            simp
          · cases h; simp

theorem processLines_first_ne {ls : List String} :
    ∀ {s s' : State}, processLines s ls = .ok s' → s.firstTime ≠ 0 →
      s'.firstTime = s.firstTime := by
  induction ls with
  | nil => intro s s' h hne; cases h; rfl
  | cons l rest ih =>
    intro s s' h hne
    unfold processLines at h
    cases hpl : processLine s l with
    | error e => simp [hpl] at h
    | ok s1 =>
      simp only [hpl] at h
      have h1 : s1.firstTime = s.firstTime := by
        rcases processLine_times hpl with ⟨_, rfl⟩ | ⟨t, _, _, hf⟩
        · rfl
        · rw [hf, if_neg hne]
      rw [ih h (h1 ▸ hne), h1]

theorem lastNonEmptyTime_none {ls : List String} (h : ∀ l ∈ ls, fields l = []) :
    lastNonEmptyTime ls = none := by
  induction ls with
  | nil => rfl
  | cons l rest ih =>
    have h1 : fields l = [] := h l (by simp)
    have h2 : lastNonEmptyTime rest = none := ih (fun x hx => h x (by simp [hx]))
    simp [lastNonEmptyTime, h2, h1]

theorem processLines_last {ls : List String} :
    ∀ {s s' : State}, processLines s ls = .ok s' →
      ((∀ l ∈ ls, fields l = []) ∧ s' = s) ∨
      (∃ tn, lastNonEmptyTime ls = some tn ∧ s'.lastTime = tn) := by
  induction ls with
  | nil => intro s s' h; cases h; exact Or.inl ⟨by simp, rfl⟩
  | cons l rest ih =>
    intro s s' h
    unfold processLines at h
    cases hpl : processLine s l with
    | error e => rw [hpl] at h; exact Except.noConfusion h
    | ok s1 =>
      rw [hpl] at h
      rcases ih h with ⟨hall, rfl⟩ | ⟨tn, htn, hlast⟩
      · rcases processLine_times hpl with ⟨hle, rfl⟩ | ⟨t, hp, hlt, _⟩
        · refine Or.inl ⟨?_, rfl⟩
          intro x hx
          rcases List.mem_cons.mp hx with rfl | hx
          · exact hle
          · exact hall x hx
        · refine Or.inr ⟨t, ?_, hlt⟩
          have hne : fields l ≠ [] := fun hc => by
            rw [hc] at hp
            exact Option.noConfusion hp
          simp only [lastNonEmptyTime, lastNonEmptyTime_none hall]
          rw [if_neg hne]
          exact hp
      · refine Or.inr ⟨tn, ?_, hlast⟩
        simp [lastNonEmptyTime, htn]

theorem processLines_first0 {ls : List String} :
    ∀ {s s' : State}, processLines s ls = .ok s' → s.firstTime = 0 →
      ∀ t1, firstNonEmptyTime ls = some t1 → t1 ≠ 0 → s'.firstTime = t1 := by
  induction ls with
  | nil => intro s s' h h0 t1 ht1; simp [firstNonEmptyTime] at ht1
  | cons l rest ih =>
    intro s s' h h0 t1 ht1 hne
    unfold processLines at h
    cases hpl : processLine s l with
    | error e => simp [hpl] at h
    | ok s1 =>
      simp only [hpl] at h
      unfold firstNonEmptyTime at ht1
      by_cases hl0 : fields l = []
      · rw [if_pos hl0] at ht1
        have hs1 : s1 = s := by
          rcases processLine_times hpl with ⟨_, rfl⟩ | ⟨t, hp, _, _⟩
          · rfl
          · rw [hl0] at hp; simp [parseInt] at hp
        exact ih h (hs1 ▸ h0) t1 ht1 hne
      · rw [if_neg hl0] at ht1
        rcases processLine_times hpl with ⟨hc, _⟩ | ⟨t, hp, _, hf⟩
        · exact absurd hc hl0
        · rw [hp] at ht1
          cases ht1
          have : s1.firstTime = t1 := by rw [hf, if_pos h0]
          rw [processLines_first_ne h (this ▸ hne), this]

theorem mul_div_lt_self {len a b : Nat} (hlen : 0 < len) (hab : a < b) :
    len * a / b < len := by
  have hb : 0 < b := Nat.lt_of_le_of_lt (Nat.zero_le a) hab
  exact (Nat.div_lt_iff_lt_mul hb).mpr (mul_lt_mul_of_pos_left hab hlen)

theorem pctIdx_lt {len : Nat} (hlen : 0 < len) : ∀ j ∈ pctIdx len, j < len := by
  intro j hj
  simp only [pctIdx, List.mem_cons, List.not_mem_nil, or_false] at hj
  rcases hj with rfl | rfl | rfl | rfl | rfl | rfl | rfl | rfl | rfl | rfl | rfl | rfl <;>
    exact mul_div_lt_self hlen (by decide)

theorem pct99_le_pct999 (len : Nat) : len * 99 / 100 ≤ len * 999 / 1000 := by
  have h1 : len * 99 / 100 = len * 990 / 1000 := by
    have h2 : len * 990 = len * 99 * 10 := by ring
    have h3 : (1000 : Nat) = 100 * 10 := by norm_num
    rw [h2, h3, Nat.mul_div_mul_right _ _ (by norm_num : (0 : Nat) < 10)]
  rw [h1]
  exact Nat.div_le_div_right (Nat.mul_le_mul_left _ (by norm_num))

theorem pctIdx_chain (len : Nat) : List.Chain' (· ≤ ·) (pctIdx len) := by
  simp only [pctIdx, List.chain'_cons, List.chain'_singleton, and_true]
  refine ⟨?_, ?_, ?_, ?_, ?_, ?_, ?_, ?_, ?_, ?_, pct99_le_pct999 len⟩ <;>
    exact Nat.div_le_div_right (Nat.mul_le_mul_left _ (by norm_num))

theorem sorted_getD_le {l : List Int} (hs : List.Sorted (· ≤ ·) l) {i j : Nat}
    (hij : i ≤ j) (hj : j < l.length) : l.getD i 0 ≤ l.getD j 0 := by
  have hi : i < l.length := Nat.lt_of_le_of_lt hij hj
  rw [List.getD_eq_getElem _ _ hi, List.getD_eq_getElem _ _ hj]
  have := hs.rel_get_of_le (a := ⟨i, hi⟩) (b := ⟨j, hj⟩) hij
  simpa [List.get_eq_getElem] using this

end Simple

/-- C1.  The claim as stated is false: `firstTime` is kept with the sentinel
`0` for "unset", so on the log `["0 get X", "5 get X"]` — whose first
non-empty line has timestamp 0 — the scan ends with `firstTime = 5`, not the
first line's timestamp 0. -/
theorem claim_C1_counterexample :
    firstNonEmptyTime ["0 get X", "5 get X"] = some 0 ∧
    (Simple.scanLog ["0 get X", "5 get X"]).toOption.map Simple.State.firstTime
      = some 5 ∧
    some (5 : Int) ≠ some (0 : Int) := by
  refine ⟨rfl, rfl, by decide⟩

/-- C1 (amended).  For every log whose scan completes with at least one
non-empty line, `lastTime` equals the timestamp of the last non-empty line
regardless of its event kind; and `firstTime` equals the timestamp of the
first non-empty line provided that timestamp is nonzero (the code uses
`firstTime == 0` as an "unset" sentinel, so a leading zero timestamp is
overwritten by the next nonzero one). -/
theorem claim_C1_first_last_times (lines : List String) (s : Simple.State)
    (h : Simple.scanLog lines = .ok s) :
    (∀ tn, lastNonEmptyTime lines = some tn → s.lastTime = tn) ∧
    (∀ t1, firstNonEmptyTime lines = some t1 → t1 ≠ 0 → s.firstTime = t1) := by
  constructor
  · intro tn htn
    rcases Simple.processLines_last h with ⟨hall, rfl⟩ | ⟨tn', htn', hl⟩
    · exfalso
      rw [Simple.lastNonEmptyTime_none hall] at htn
      cases htn
    · rw [htn'] at htn
      cases htn
      exact hl
  · intro t1 ht1 hne
    exact Simple.processLines_first0 h rfl t1 ht1 hne

/-- Witness for C1: on the log `["7 get X"]` the single non-empty line has
timestamp 7 ≠ 0, and the scan ends with `firstTime = lastTime = 7`. -/
theorem claim_C1_first_last_times_witness :
    ({ Simple.initState with firstTime := 7, lastTime := 7 } : Simple.State).lastTime = 7 ∧
    ({ Simple.initState with firstTime := 7, lastTime := 7 } : Simple.State).firstTime = 7 :=
  ⟨(claim_C1_first_last_times ["7 get X"] _ rfl).1 7 rfl,
   (claim_C1_first_last_times ["7 get X"] _ rfl).2 7 rfl (by decide)⟩

/-- C7.  The reporter takes the "no reuse" branch exactly on the empty
sample sequence; on a non-empty sequence it sorts ascending and reports the
sample at index `len*p/100` for each percentile (999/1000 for 99.9%)
followed by the sample at index `len-1`; every percentile index is strictly
below `len`, and the final reported value is the maximum of the samples. -/
theorem claim_C7_reporter (reuse : List Int) :
    (reuse = [] → Simple.report reuse = .noReuse) ∧
    (reuse ≠ [] →
      Simple.report reuse =
        .percentiles
          ((pctIdx reuse.length).map
            (fun j => (List.insertionSort (· ≤ ·) reuse).getD j 0))
          ((List.insertionSort (· ≤ ·) reuse).getD (reuse.length - 1) 0) ∧
      (∀ j ∈ pctIdx reuse.length, j < reuse.length) ∧
      (List.insertionSort (· ≤ ·) reuse).getD (reuse.length - 1) 0 ∈ reuse ∧
      ∀ x ∈ reuse, x ≤ (List.insertionSort (· ≤ ·) reuse).getD (reuse.length - 1) 0) := by
  have hperm := List.perm_insertionSort (· ≤ ·) reuse
  have hlen : (List.insertionSort (· ≤ ·) reuse).length = reuse.length := hperm.length_eq
  have hsort := List.sorted_insertionSort (· ≤ ·) reuse
  constructor
  · rintro rfl; rfl
  · intro hne
    have hlen0 : reuse.length ≠ 0 := fun hc => hne (List.length_eq_zero.mp hc)
    have hpos : 0 < reuse.length := Nat.pos_of_ne_zero hlen0
    have hlast : reuse.length - 1 < (List.insertionSort (· ≤ ·) reuse).length := by
      rw [hlen]; exact Nat.sub_lt hpos Nat.one_pos
    refine ⟨?_, Simple.pctIdx_lt hpos, ?_, ?_⟩
    · unfold Simple.report Simple.printCache
      rw [hlen, if_neg hlen0]
    · rw [List.getD_eq_getElem _ _ hlast]
      exact hperm.subset (List.getElem_mem _)
    · intro x hx
      obtain ⟨i, hi, rfl⟩ := List.getElem_of_mem (hperm.mem_iff.mpr hx)
      have h1 : (List.insertionSort (· ≤ ·) reuse).getD i 0 ≤
          (List.insertionSort (· ≤ ·) reuse).getD (reuse.length - 1) 0 := by
        refine Simple.sorted_getD_le hsort ?_ hlast
        rw [hlen] at hi
        exact Nat.le_sub_one_of_lt hi
      rwa [List.getD_eq_getElem _ _ hi] at h1

/-- Witness for C7 at the empty sequence and at the sequence [5, 3]. -/
theorem claim_C7_reporter_witness :
    Simple.report [] = .noReuse ∧
    Simple.report [5, 3] =
      .percentiles
        ((pctIdx 2).map (fun j => (List.insertionSort (· ≤ ·) [(5 : Int), 3]).getD j 0))
        ((List.insertionSort (· ≤ ·) [(5 : Int), 3]).getD 1 0) :=
  ⟨(claim_C7_reporter []).1 rfl, ((claim_C7_reporter [5, 3]).2 (by decide)).1⟩

/-- C8.  On every non-empty sample sequence the reported percentile values
are monotone non-decreasing in the percentile, and none exceeds the
reported maximum (division by the positive constant 86400 preserves both). -/
theorem claim_C8_percentiles_monotone (reuse : List Int) (hne : reuse ≠ [])
    (vals : List Int) (maxv : Int)
    (h : Simple.report reuse = .percentiles vals maxv) :
    List.Sorted (· ≤ ·) vals ∧ ∀ v ∈ vals, v ≤ maxv := by
  have hperm := List.perm_insertionSort (· ≤ ·) reuse
  have hlen : (List.insertionSort (· ≤ ·) reuse).length = reuse.length := hperm.length_eq
  have hsort := List.sorted_insertionSort (· ≤ ·) reuse
  have hlen0 : reuse.length ≠ 0 := fun hc => hne (List.length_eq_zero.mp hc)
  have hpos : 0 < reuse.length := Nat.pos_of_ne_zero hlen0
  unfold Simple.report Simple.printCache at h
  rw [hlen, if_neg hlen0] at h
  cases h
  have hlast : reuse.length - 1 < (List.insertionSort (· ≤ ·) reuse).length := by
    rw [hlen]; exact Nat.sub_lt hpos Nat.one_pos
  constructor
  · rw [List.Sorted, List.pairwise_map]
    have hpw : List.Pairwise (· ≤ ·) (pctIdx reuse.length) :=
      List.chain'_iff_pairwise.mp (Simple.pctIdx_chain reuse.length)
    refine hpw.imp_of_mem ?_
    intro i j hi hj hij
    exact Simple.sorted_getD_le hsort hij (by rw [hlen]; exact Simple.pctIdx_lt hpos j hj)
  · intro v hv
    obtain ⟨j, hj, rfl⟩ := List.mem_map.mp hv
    refine Simple.sorted_getD_le hsort ?_ hlast
    exact Nat.le_sub_one_of_lt (Simple.pctIdx_lt hpos j hj)

/-- Witness for C8 at the sequence [5, 3]: the value reported for the 10th
percentile is at most the reported maximum. -/
theorem claim_C8_percentiles_monotone_witness : (3 : Int) ≤ 5 :=
  (claim_C8_percentiles_monotone [5, 3] (by decide)
      ((pctIdx 2).map (fun j => (List.insertionSort (· ≤ ·) [(5 : Int), 3]).getD j 0))
      5 rfl).2 3 (by decide)

/-- C6.  The three-line example log from the spec produces exactly the
expected totals, samples and time range, with the action-reuse credit
granted at the `t = 1010` event (it is 0 after the put line alone and
already 154 after the first get). -/
theorem claim_C6_example_log :
    (Simple.scanLog ["1000 put A D 500", "1010 get A", "1020 get A"]).toOption.map
        (fun s => (s.totalA, s.totalD, s.totalReusedA, s.totalReusedD,
                   s.reuseA, s.reuseD, s.firstTime, s.lastTime))
      = some (154, 500, 154, 500, [10, 20], [10, 20], 1000, 1020) ∧
    (Simple.scanLog ["1000 put A D 500", "1010 get A"]).toOption.map
        (fun s => s.totalReusedA) = some 154 ∧
    (Simple.scanLog ["1000 put A D 500"]).toOption.map
        (fun s => s.totalReusedA) = some 0 :=
  ⟨rfl, rfl, rfl⟩

theorem append_a_ne_append_d (x y : String) : x ++ "-a" ≠ y ++ "-d" := by
  intro h
  have h2 := congrArg (fun s : String => s.data.getLast?) h
  simp only [String.data_append] at h2
  rw [@List.getLast?_append_of_ne_nil _ x.data "-a".data (by decide),
      @List.getLast?_append_of_ne_nil _ y.data "-d".data (by decide)] at h2
  exact absurd h2 (by decide)

theorem append_d_ne_append_a (x y : String) : x ++ "-d" ≠ y ++ "-a" :=
  fun h => append_a_ne_append_d y x h.symm

theorem lookup_cons_ne {β : Type} {k k' : String} {v : β} {l : List (String × β)}
    (h : k ≠ k') : List.lookup k ((k', v) :: l) = List.lookup k l := by
  rw [List.lookup_cons, beq_eq_false_iff_ne.mpr h]

theorem lookup_cons_self {β : Type} {k : String} {v : β} {l : List (String × β)} :
    List.lookup k ((k, v) :: l) = some v := by
  rw [List.lookup_cons, beq_self_eq_true]

theorem lt_length_of_getElem?_some {α : Type} {l : List α} {n : Nat} {x : α}
    (h : l[n]? = some x) : n < l.length := by
  by_contra hc
  rw [List.getElem?_eq_none (Nat.le_of_not_lt hc)] at h
  cases h

theorem getElem?_append_some {α : Type} {l l' : List α} {n : Nat} {x : α}
    (h : l[n]? = some x) : (l ++ l')[n]? = some x := by
  rw [List.getElem?_append_left (lt_length_of_getElem?_some h)]
  exact h

theorem getElem?_concat_cases {α : Type} {l : List α} {x : α} {n : Nat} {e : α}
    (h : (l ++ [x])[n]? = some e) : l[n]? = some e ∨ (n = l.length ∧ e = x) := by
  by_cases hn : n < l.length
  · left; rwa [List.getElem?_append_left hn] at h
  · right
    have hle : l.length ≤ n := Nat.le_of_not_lt hn
    rw [List.getElem?_append_right hle] at h
    cases hnl : n - l.length with
    | zero =>
      rw [hnl] at h
      cases h
      exact ⟨Nat.le_antisymm (Nat.le_of_sub_eq_zero hnl) hle, rfl⟩
    | succ m =>
      rw [hnl] at h
      cases h

theorem set_of_getElem?_some {α : Type} {l : List α} :
    ∀ {i : Nat} {x : α}, l[i]? = some x → l.set i x = l := by
  induction l with
  | nil => intro i x h; cases h
  | cons a as ih =>
    intro i x h
    cases i with
    | zero =>
      rw [List.getElem?_cons_zero] at h
      cases h
      rfl
    | succ n =>
      rw [List.getElem?_cons_succ] at h
      simp [List.set, ih h]

theorem sum_map_set {α : Type} {f : α → Int} {l : List α} :
    ∀ {i : Nat} {e : α}, l[i]? = some e → ∀ x : α,
      ((l.set i x).map f).sum = (l.map f).sum + f x - f e := by
  induction l with
  | nil => intro i e h x; cases h
  | cons a as ih =>
    intro i e h x
    cases i with
    | zero =>
      rw [List.getElem?_cons_zero] at h
      cases h
      simp [List.set]
      ring
    | succ n =>
      rw [List.getElem?_cons_succ] at h
      have hset : (a :: as).set (n + 1) x = a :: as.set n x := rfl
      rw [hset, List.map_cons, List.sum_cons, ih h x, List.map_cons, List.sum_cons]
      ring

namespace Simple

theorem entry_set_reused_true_eq {e : entry} (h : e.reused = true) :
    ({ e with reused := true } : entry) = e := by
  cases e
  simp_all

theorem entrySim_refl (e : entry) : entrySim e e := ⟨rfl, rfl, rfl, id⟩

theorem entrySim_trans {e1 e2 e3 : entry} (h1 : entrySim e1 e2) (h2 : entrySim e2 e3) :
    entrySim e1 e3 :=
  ⟨h2.1.trans h1.1, h2.2.1.trans h1.2.1, h2.2.2.1.trans h1.2.2.1,
   fun h => h2.2.2.2 (h1.2.2.2 h)⟩

theorem heapSim_refl (h : List entry) : heapSim h h :=
  fun _ e he => ⟨e, he, entrySim_refl e⟩

theorem heapSim_trans {h1 h2 h3 : List entry} (hA : heapSim h1 h2) (hB : heapSim h2 h3) :
    heapSim h1 h3 := by
  intro i e he
  obtain ⟨e2, he2, hs2⟩ := hA i e he
  obtain ⟨e3, he3, hs3⟩ := hB i e2 he2
  exact ⟨e3, he3, entrySim_trans hs2 hs3⟩

theorem heapSim_append (h : List entry) (l : List entry) : heapSim h (h ++ l) :=
  fun _ e he => ⟨e, getElem?_append_some he, entrySim_refl e⟩

theorem heapSim_set {h : List entry} {a : Nat} {e0 e0' : entry}
    (he0 : h[a]? = some e0) (hsim : entrySim e0 e0') : heapSim h (h.set a e0') := by
  intro i e he
  by_cases hi : i = a
  · subst hi
    rw [he0] at he
    cases he
    exact ⟨e0', List.getElem?_set_self (lt_length_of_getElem?_some he0), hsim⟩
  · exact ⟨e, by rw [List.getElem?_set_ne (Ne.symm hi)]; exact he, entrySim_refl e⟩

theorem WF_init : WF initState := by
  refine ⟨?_, ?_, ?_⟩
  · intro k a h
    cases h
  · intro k d h
    cases h
  · intro a e h d hd
    cases h

theorem touch_WF {s : State} (hw : WF s) (t : Int) : WF (touch s t) :=
  ⟨hw.cacheA, hw.cacheD, hw.ptrOK⟩

theorem putData_WF {s : State} (hw : WF s) (t sz : Int) (k : String) :
    WF (putData s t sz k).1 ∧
    ∃ e1 : entry, (putData s t sz k).1.heap[(putData s t sz k).2]? = some e1 ∧
      e1.data = none := by
  unfold putData
  cases hl : List.lookup (k ++ "-d") s.cache with
  | some a => exact ⟨hw, hw.cacheD k a hl⟩
  | none =>
    refine ⟨⟨?_, ?_, ?_⟩, ?_⟩
    · intro k' a' h'
      rw [lookup_cons_ne (append_a_ne_append_d k' k)] at h'
      obtain ⟨e, he, hd⟩ := hw.cacheA k' a' h'
      exact ⟨e, getElem?_append_some he, hd⟩
    · intro k' d' h'
      by_cases hk : k' ++ "-d" = k ++ "-d"
      · rw [hk, lookup_cons_self] at h'
        cases h'
        exact ⟨_, List.getElem?_concat_length s.heap _, rfl⟩
      · rw [lookup_cons_ne hk] at h'
        obtain ⟨e, he, hd⟩ := hw.cacheD k' d' h'
        exact ⟨e, getElem?_append_some he, hd⟩
    · intro a' e' he' d' hd'
      rcases getElem?_concat_cases he' with h1 | ⟨rfl, rfl⟩
      · obtain ⟨e1, he1, h1d⟩ := hw.ptrOK a' e' h1 d' hd'
        exact ⟨e1, getElem?_append_some he1, h1d⟩
      · cases hd'
    · exact ⟨_, List.getElem?_concat_length s.heap _, rfl⟩

theorem putAction_WF {s : State} (hw : WF s) {d : Nat} {e1 : entry}
    (hd : s.heap[d]? = some e1) (hd1 : e1.data = none) (t : Int) (k : String) :
    WF (putAction s t d k) := by
  unfold putAction
  cases hl : List.lookup (k ++ "-a") s.cache with
  | some a => exact hw
  | none =>
    refine ⟨?_, ?_, ?_⟩
    · intro k' a' h'
      by_cases hk : k' ++ "-a" = k ++ "-a"
      · rw [hk, lookup_cons_self] at h'
        cases h'
        exact ⟨_, List.getElem?_concat_length s.heap _, by simp⟩
      · rw [lookup_cons_ne hk] at h'
        obtain ⟨e, he, hdne⟩ := hw.cacheA k' a' h'
        exact ⟨e, getElem?_append_some he, hdne⟩
    · intro k' d' h'
      rw [lookup_cons_ne (append_d_ne_append_a k' k)] at h'
      obtain ⟨e, he, hdn⟩ := hw.cacheD k' d' h'
      exact ⟨e, getElem?_append_some he, hdn⟩
    · intro a' e' he' d0 hd0
      rcases getElem?_concat_cases he' with h1 | ⟨rfl, rfl⟩
      · obtain ⟨ee, hee, heed⟩ := hw.ptrOK a' e' h1 d0 hd0
        exact ⟨ee, getElem?_append_some hee, heed⟩
      · cases hd0
        exact ⟨e1, getElem?_append_some hd, hd1⟩

theorem doPut_WF {s : State} (hw : WF s) (t sz : Int) (a d : String) :
    WF (doPut s t sz a d) := by
  obtain ⟨h1, e1, he1, hd1⟩ := putData_WF hw t sz d
  exact putAction_WF h1 he1 hd1 t a

theorem WF_update {s s' : State} (hw : WF s) {i : Nat} {e e' : entry}
    (he : s.heap[i]? = some e) (hdata : e'.data = e.data)
    (hc : s'.cache = s.cache) (hh : s'.heap = s.heap.set i e') : WF s' := by
  have hilt : i < s.heap.length := lt_length_of_getElem?_some he
  have hget : ∀ j : Nat, s'.heap[j]? = if j = i then some e' else s.heap[j]? := by
    intro j
    by_cases hj : j = i
    · subst hj
      rw [hh, if_pos rfl, List.getElem?_set_self hilt]
    · rw [hh, if_neg hj, List.getElem?_set_ne (Ne.symm hj)]
  refine ⟨?_, ?_, ?_⟩
  · intro k a h'
    rw [hc] at h'
    obtain ⟨ea, hea, hda⟩ := hw.cacheA k a h'
    rw [hget a]
    by_cases ha : a = i
    · subst ha
      rw [he] at hea
      cases hea
      exact ⟨e', if_pos rfl, by rw [hdata]; exact hda⟩
    · rw [if_neg ha]
      exact ⟨ea, hea, hda⟩
  · intro k d h'
    rw [hc] at h'
    obtain ⟨ed, hed, hdd⟩ := hw.cacheD k d h'
    rw [hget d]
    by_cases hd : d = i
    · subst hd
      rw [he] at hed
      cases hed
      exact ⟨e', if_pos rfl, by rw [hdata]; exact hdd⟩
    · rw [if_neg hd]
      exact ⟨ed, hed, hdd⟩
  · intro a ea hea d hd
    rw [hget a] at hea
    have step : ∀ e1 : entry, s.heap[d]? = some e1 → e1.data = none →
        ∃ e2 : entry, s'.heap[d]? = some e2 ∧ e2.data = none := by
      intro e1 he1 h1d
      rw [hget d]
      by_cases hdi : d = i
      · subst hdi
        rw [he] at he1
        cases he1
        exact ⟨e', if_pos rfl, by rw [hdata]; exact h1d⟩
      · rw [if_neg hdi]
        exact ⟨e1, he1, h1d⟩
    by_cases ha : a = i
    · subst ha
      rw [if_pos rfl] at hea
      cases hea
      obtain ⟨e1, he1, h1d⟩ := hw.ptrOK _ e he d (by rw [← hdata]; exact hd)
      exact step e1 he1 h1d
    · rw [if_neg ha] at hea
      obtain ⟨e1, he1, h1d⟩ := hw.ptrOK a ea hea d hd
      exact step e1 he1 h1d

theorem reuseAction_WF {s : State} (hw : WF s) {a : Nat} {e : entry}
    (he : s.heap[a]? = some e) : WF (reuseAction s a e) := by
  unfold reuseAction
  split
  · exact hw
  · exact WF_update hw he
      (show ({ e with reused := true } : entry).data = e.data from rfl) rfl rfl

theorem reuseData_WF {s : State} (hw : WF s) {d : Nat} {e1 : entry}
    (he : s.heap[d]? = some e1) : WF (reuseData s d e1) := by
  unfold reuseData
  split
  · exact hw
  · exact WF_update hw he
      (show ({ e1 with reused := true } : entry).data = e1.data from rfl) rfl rfl

/-- The complete case analysis of the get/miss handler from a well-formed
state: either the action key is absent and the line is skipped, or the
dereference chain is fully defined and the handler returns the state with
both reuse stages applied and the two samples appended. -/
theorem doGet_cases {s : State} (hw : WF s) (t : Int) (k : String) :
    (List.lookup (k ++ "-a") s.cache = none ∧ doGet s t k = .ok s) ∨
    (∃ (a : Nat) (e : entry) (d : Nat) (e1 : entry),
       List.lookup (k ++ "-a") s.cache = some a ∧ s.heap[a]? = some e ∧
       e.data = some d ∧ e.data ≠ none ∧ d ≠ a ∧ s.heap[d]? = some e1 ∧
       e1.data = none ∧ (reuseAction s a e).heap[d]? = some e1 ∧
       doGet s t k = .ok { reuseData (reuseAction s a e) d e1 with
           reuseA := (reuseData (reuseAction s a e) d e1).reuseA ++ [t - e.created]
           reuseD := (reuseData (reuseAction s a e) d e1).reuseD ++ [t - e1.created] }) := by
  cases hl : List.lookup (k ++ "-a") s.cache with
  | none =>
    left
    refine ⟨rfl, ?_⟩
    unfold doGet
    rw [hl]
  | some a =>
    right
    obtain ⟨e, he, hdne⟩ := hw.cacheA k a hl
    cases hd : e.data with
    | none => exact absurd hd hdne
    | some d =>
      obtain ⟨e1, he1, h1d⟩ := hw.ptrOK a e he d hd
      have hda : d ≠ a := by
        intro hc
        subst hc
        rw [he] at he1
        cases he1
        exact hdne h1d
      have hge1 : (reuseAction s a e).heap[d]? = some e1 := by
        unfold reuseAction
        split
        · exact he1
        · rw [List.getElem?_set_ne (Ne.symm hda)]
          exact he1
      have heq : doGet s t k = .ok { reuseData (reuseAction s a e) d e1 with
          reuseA := (reuseData (reuseAction s a e) d e1).reuseA ++ [t - e.created]
          reuseD := (reuseData (reuseAction s a e) d e1).reuseD ++ [t - e1.created] } := by
        unfold doGet
        simp only [hl, he, hd, hge1]
      exact ⟨a, e, d, e1, rfl, he, hd, hdne, hda, he1, h1d, hge1, heq⟩

theorem doGet_ok_WF {s : State} (hw : WF s) (t : Int) (k : String) :
    ∃ s' : State, doGet s t k = .ok s' ∧ WF s' := by
  rcases doGet_cases hw t k with ⟨_, heq⟩ | ⟨a, e, d, e1, _, he, _, _, _, _, _, hge1, heq⟩
  · exact ⟨s, heq, hw⟩
  · refine ⟨_, heq, ?_⟩
    have hw2 : WF (reuseData (reuseAction s a e) d e1) :=
      reuseData_WF (reuseAction_WF hw he) hge1
    exact ⟨hw2.cacheA, hw2.cacheD, hw2.ptrOK⟩

theorem reusedSumA_append (h : List entry) (e : entry) :
    reusedSumA (h ++ [e]) = reusedSumA h + entryWeightA e := by
  simp [reusedSumA]

theorem reusedSumD_append (h : List entry) (e : entry) :
    reusedSumD (h ++ [e]) = reusedSumD h + entryWeightD e := by
  simp [reusedSumD]

theorem putData_SumInv {s : State} (hs : SumInv s) (t sz : Int) (k : String) :
    SumInv (putData s t sz k).1 := by
  unfold putData
  cases hl : List.lookup (k ++ "-d") s.cache with
  | some a => exact hs
  | none =>
    refine ⟨?_, ?_⟩
    · show s.totalReusedA =
        reusedSumA (s.heap ++ [{ created := t, size := sz, reused := false, data := none }])
      rw [reusedSumA_append]
      have h0 : entryWeightA
          ({ created := t, size := sz, reused := false, data := none } : entry) = 0 := by
        simp [entryWeightA]
      rw [h0, add_zero]
      exact hs.1
    · show s.totalReusedD =
        reusedSumD (s.heap ++ [{ created := t, size := sz, reused := false, data := none }])
      rw [reusedSumD_append]
      have h0 : entryWeightD
          ({ created := t, size := sz, reused := false, data := none } : entry) = 0 := by
        simp [entryWeightD]
      rw [h0, add_zero]
      exact hs.2

theorem putAction_SumInv {s : State} (hs : SumInv s) (t : Int) (d : Nat) (k : String) :
    SumInv (putAction s t d k) := by
  unfold putAction
  cases hl : List.lookup (k ++ "-a") s.cache with
  | some a => exact hs
  | none =>
    refine ⟨?_, ?_⟩
    · show s.totalReusedA =
        reusedSumA (s.heap ++ [{ created := t, size := 154, reused := false, data := some d }])
      rw [reusedSumA_append]
      have h0 : entryWeightA
          ({ created := t, size := 154, reused := false, data := some d } : entry) = 0 := by
        simp [entryWeightA]
      rw [h0, add_zero]
      exact hs.1
    · show s.totalReusedD =
        reusedSumD (s.heap ++ [{ created := t, size := 154, reused := false, data := some d }])
      rw [reusedSumD_append]
      have h0 : entryWeightD
          ({ created := t, size := 154, reused := false, data := some d } : entry) = 0 := by
        simp [entryWeightD]
      rw [h0, add_zero]
      exact hs.2

theorem doPut_SumInv {s : State} (hs : SumInv s) (t sz : Int) (a d : String) :
    SumInv (doPut s t sz a d) :=
  putAction_SumInv (putData_SumInv hs t sz d) t _ a

theorem reuseAction_SumInv {s : State} (hs : SumInv s) {a : Nat} {e : entry}
    (he : s.heap[a]? = some e) (hdne : e.data ≠ none) : SumInv (reuseAction s a e) := by
  unfold reuseAction
  split
  · exact hs
  · next hr =>
    have hsome : e.data.isSome = true := Option.isSome_iff_ne_none.mpr hdne
    refine ⟨?_, ?_⟩
    · show s.totalReusedA + e.size = reusedSumA (s.heap.set a { e with reused := true })
      unfold reusedSumA
      rw [sum_map_set he]
      have h1 : entryWeightA { e with reused := true } = e.size := by
        simp [entryWeightA, hsome]
      have h2 : entryWeightA e = 0 := by
        simp [entryWeightA, hr]
      rw [h1, h2]
      have := hs.1
      unfold reusedSumA at this
      omega
    · show s.totalReusedD = reusedSumD (s.heap.set a { e with reused := true })
      unfold reusedSumD
      rw [sum_map_set he]
      have h1 : entryWeightD { e with reused := true } = 0 := by
        simp [entryWeightD]
        intro hc
        exact absurd hc hdne
      have h2 : entryWeightD e = 0 := by
        simp [entryWeightD, hr]
      rw [h1, h2]
      have := hs.2
      unfold reusedSumD at this
      omega

theorem reuseData_SumInv {s : State} (hs : SumInv s) {d : Nat} {e1 : entry}
    (he1 : s.heap[d]? = some e1) (h1d : e1.data = none) : SumInv (reuseData s d e1) := by
  unfold reuseData
  split
  · exact hs
  · next hr =>
    refine ⟨?_, ?_⟩
    · show s.totalReusedA = reusedSumA (s.heap.set d { e1 with reused := true })
      unfold reusedSumA
      rw [sum_map_set he1]
      have h1 : entryWeightA { e1 with reused := true } = 0 := by
        simp [entryWeightA, h1d]
      have h2 : entryWeightA e1 = 0 := by
        simp [entryWeightA, hr]
      rw [h1, h2]
      have := hs.1
      unfold reusedSumA at this
      omega
    · show s.totalReusedD + e1.size = reusedSumD (s.heap.set d { e1 with reused := true })
      unfold reusedSumD
      rw [sum_map_set he1]
      have h1 : entryWeightD { e1 with reused := true } = e1.size := by
        simp [entryWeightD, h1d]
      have h2 : entryWeightD e1 = 0 := by
        simp [entryWeightD, hr]
      rw [h1, h2]
      have := hs.2
      unfold reusedSumD at this
      omega

theorem doGet_SumInv {s s' : State} (hw : WF s) (hs : SumInv s) {t : Int} {k : String}
    (h : doGet s t k = .ok s') : SumInv s' := by
  rcases doGet_cases hw t k with ⟨_, heq⟩ |
    ⟨a, e, d, e1, _, he, _, hdne, _, _, h1d, hge1, heq⟩
  · rw [heq] at h
    cases h
    exact hs
  · rw [heq] at h
    cases h
    have hs2 : SumInv (reuseData (reuseAction s a e) d e1) :=
      reuseData_SumInv (reuseAction_SumInv hs he hdne) hge1 h1d
    exact ⟨hs2.1, hs2.2⟩

theorem processLine_WF_SumInv {s s' : State} {l : String} (hw : WF s) (hs : SumInv s)
    (h : processLine s l = .ok s') : WF s' ∧ SumInv s' := by
  unfold processLine at h
  split at h
  · cases h
    exact ⟨hw, hs⟩
  · split at h
    · exact Except.noConfusion h
    · split at h
      · exact Except.noConfusion h
      · next t hp =>
        split at h
        · split at h
          · exact Except.noConfusion h
          · cases h
            exact ⟨doPut_WF (touch_WF hw t) _ _ _ _,
                   doPut_SumInv (show SumInv (touch s t) from hs) t _ _ _⟩
        · split at h
          · obtain ⟨s'', heq, hw''⟩ := doGet_ok_WF (touch_WF hw t) t _
            have hss : s'' = s' := by
              have := heq.symm.trans h
              exact Except.ok.inj this
            subst hss
            exact ⟨hw'', doGet_SumInv (touch_WF hw t) hs h⟩
          · cases h
            exact ⟨touch_WF hw t, hs⟩

theorem processLines_WF_SumInv {ls : List String} :
    ∀ {s s' : State}, WF s → SumInv s → processLines s ls = .ok s' →
      WF s' ∧ SumInv s' := by
  induction ls with
  | nil =>
    intro s s' hw hs h
    cases h
    exact ⟨hw, hs⟩
  | cons l rest ih =>
    intro s s' hw hs h
    unfold processLines at h
    cases hpl : processLine s l with
    | error e => rw [hpl] at h; exact Except.noConfusion h
    | ok s1 =>
      rw [hpl] at h
      obtain ⟨hw1, hs1⟩ := processLine_WF_SumInv hw hs hpl
      exact ih hw1 hs1 h

theorem scanLog_WF_SumInv {lines : List String} {s : State}
    (h : scanLog lines = .ok s) : WF s ∧ SumInv s :=
  processLines_WF_SumInv WF_init ⟨rfl, rfl⟩ h

theorem putData_cases (s : State) (t sz : Int) (k : String) :
    (∃ d0 : Nat, List.lookup (k ++ "-d") s.cache = some d0 ∧ putData s t sz k = (s, d0)) ∨
    (List.lookup (k ++ "-d") s.cache = none ∧
     putData s t sz k =
       ({ s with heap := s.heap ++ [{ created := t, size := sz, reused := false, data := none }]
                 cache := (k ++ "-d", s.heap.length) :: s.cache
                 totalD := s.totalD + sz },
        s.heap.length)) := by
  unfold putData
  cases hld : List.lookup (k ++ "-d") s.cache with
  | none => exact Or.inr ⟨rfl, rfl⟩
  | some d0 => exact Or.inl ⟨d0, rfl, rfl⟩

theorem putAction_cases (s : State) (t : Int) (d : Nat) (k : String) :
    (∃ a0 : Nat, List.lookup (k ++ "-a") s.cache = some a0 ∧ putAction s t d k = s) ∨
    (List.lookup (k ++ "-a") s.cache = none ∧
     putAction s t d k =
       { s with heap := s.heap ++ [{ created := t, size := 154, reused := false, data := some d }]
                cache := (k ++ "-a", s.heap.length) :: s.cache
                totalA := s.totalA + 154 }) := by
  unfold putAction
  cases hla : List.lookup (k ++ "-a") s.cache with
  | none => exact Or.inr ⟨rfl, rfl⟩
  | some a0 => exact Or.inl ⟨a0, rfl, rfl⟩

theorem doPut_actionKey_frame {s : State} {t sz : Int} {aKey dKey : String} {a : Nat}
    {e : entry} (hl : List.lookup (aKey ++ "-a") s.cache = some a)
    (he : s.heap[a]? = some e) :
    (doPut s t sz aKey dKey).heap[a]? = some e ∧
    List.lookup (aKey ++ "-a") (doPut s t sz aKey dKey).cache = some a ∧
    (doPut s t sz aKey dKey).totalA = s.totalA := by
  unfold doPut
  rcases putData_cases s t sz dKey with ⟨d0, hld, hpd⟩ | ⟨hld, hpd⟩
  · simp only [hpd]
    rcases putAction_cases s t d0 aKey with ⟨a0, hla, hpa⟩ | ⟨hla, hpa⟩
    · simp only [hpa]
      exact ⟨he, hl, trivial⟩
    · rw [hl] at hla
      cases hla
  · simp only [hpd]
    have hl1 : List.lookup (aKey ++ "-a") ((dKey ++ "-d", s.heap.length) :: s.cache)
        = some a := by
      rw [lookup_cons_ne (append_a_ne_append_d aKey dKey)]
      exact hl
    rcases putAction_cases
        ({ s with heap := s.heap ++ [{ created := t, size := sz, reused := false, data := none }]
                  cache := (dKey ++ "-d", s.heap.length) :: s.cache
                  totalD := s.totalD + sz }) t s.heap.length aKey with
      ⟨a0, hla, hpa⟩ | ⟨hla, hpa⟩
    · simp only [hpa]
      exact ⟨getElem?_append_some he, hl1, trivial⟩
    · rw [hl1] at hla
      cases hla

theorem doPut_dataKey_frame {s : State} {t sz : Int} {aKey dKey : String} {d : Nat}
    {e : entry} (hl : List.lookup (dKey ++ "-d") s.cache = some d)
    (he : s.heap[d]? = some e) :
    (doPut s t sz aKey dKey).heap[d]? = some e ∧
    (doPut s t sz aKey dKey).totalD = s.totalD := by
  unfold doPut
  rcases putData_cases s t sz dKey with ⟨d0, hld, hpd⟩ | ⟨hld, hpd⟩
  · simp only [hpd]
    rcases putAction_cases s t d0 aKey with ⟨a0, hla, hpa⟩ | ⟨hla, hpa⟩
    · simp only [hpa]
      exact ⟨he, trivial⟩
    · simp only [hpa]
      exact ⟨getElem?_append_some he, trivial⟩
  · rw [hld] at hl
    cases hl

theorem putData_heapSim (s : State) (t sz : Int) (k : String) :
    heapSim s.heap (putData s t sz k).1.heap := by
  rcases putData_cases s t sz k with ⟨d0, _, hpd⟩ | ⟨_, hpd⟩
  · simp only [hpd]
    exact heapSim_refl _
  · simp only [hpd]
    exact heapSim_append _ _

theorem putAction_heapSim (s : State) (t : Int) (d : Nat) (k : String) :
    heapSim s.heap (putAction s t d k).heap := by
  rcases putAction_cases s t d k with ⟨a0, _, hpa⟩ | ⟨_, hpa⟩
  · simp only [hpa]
    exact heapSim_refl _
  · simp only [hpa]
    exact heapSim_append _ _

theorem doPut_heapSim (s : State) (t sz : Int) (a d : String) :
    heapSim s.heap (doPut s t sz a d).heap :=
  heapSim_trans (putData_heapSim s t sz d) (putAction_heapSim _ t _ a)

theorem reuseAction_heapSim {s : State} {a : Nat} {e : entry}
    (he : s.heap[a]? = some e) : heapSim s.heap (reuseAction s a e).heap := by
  unfold reuseAction
  split
  · exact heapSim_refl _
  · exact heapSim_set he ⟨rfl, rfl, rfl, fun _ => rfl⟩

theorem reuseData_heapSim {s : State} {d : Nat} {e1 : entry}
    (he : s.heap[d]? = some e1) : heapSim s.heap (reuseData s d e1).heap := by
  unfold reuseData
  split
  · exact heapSim_refl _
  · exact heapSim_set he ⟨rfl, rfl, rfl, fun _ => rfl⟩

theorem doGet_heapSim {s s' : State} {t : Int} {k : String}
    (h : doGet s t k = .ok s') : heapSim s.heap s'.heap := by
  unfold doGet at h
  split at h
  · cases h
    exact heapSim_refl _
  · split at h
    · exact Except.noConfusion h
    · next e heq1 =>
      split at h
      · exact Except.noConfusion h
      · next d heq2 =>
        split at h
        · exact Except.noConfusion h
        · next e1 heq3 =>
          cases h
          exact heapSim_trans (reuseAction_heapSim heq1) (reuseData_heapSim heq3)

theorem processLine_heapSim {s s' : State} {l : String}
    (h : processLine s l = .ok s') : heapSim s.heap s'.heap := by
  unfold processLine at h
  split at h
  · cases h
    exact heapSim_refl _
  · split at h
    · exact Except.noConfusion h
    · split at h
      · exact Except.noConfusion h
      · next t hp =>
        split at h
        · split at h
          · exact Except.noConfusion h
          · cases h
            exact doPut_heapSim (touch s t) t _ _ _
        · split at h
          · have hsim := doGet_heapSim h
            exact hsim
          · cases h
            exact heapSim_refl _

theorem processLine_ok_lineOK {s s' : State} {l : String}
    (h : processLine s l = .ok s') : lineOK l := by
  unfold processLine at h
  split at h
  · next h0 =>
    exact Or.inl (List.length_eq_zero.mp h0)
  · next h0 =>
    split at h
    · exact Except.noConfusion h
    · next h1 =>
      split at h
      · exact Except.noConfusion h
      · next t hp =>
        right
        have hlen3 : 3 ≤ (fields l).length := by
          rcases Nat.lt_or_ge (fields l).length 3 with hlt | hge
          · exact absurd (Or.inl hlt) h1
          · exact hge
        have hput5 : (fields l).getD 1 "" = "put" → (fields l).length = 5 := by
          intro hb
          by_contra hne
          exact h1 (Or.inr ⟨hb, hne⟩)
        split at h
        · next h2 =>
          split at h
          · exact Except.noConfusion h
          · next sz hsz =>
            refine ⟨hlen3, hput5, ?_, fun _ hc => ?_⟩
            · intro hc
              rw [hp] at hc
              cases hc
            · rw [hsz] at hc
              cases hc
        · next h2 =>
          refine ⟨hlen3, hput5, ?_, fun hb => absurd hb h2⟩
          intro hc
          rw [hp] at hc
          cases hc

theorem processLine_error_not_lineOK {s : State} {l : String} {err : Err} (hw : WF s)
    (h : processLine s l = .error err) :
    ¬ lineOK l ∧ (err = .badLine l ∨ err = .badTime l ∨ err = .badSize l) := by
  unfold processLine at h
  split at h
  · exact Except.noConfusion h
  · next h0 =>
    split at h
    · next h1 =>
      cases h
      refine ⟨?_, Or.inl rfl⟩
      rintro (hemp | ⟨hlen, hput5, hparse, hputsz⟩)
      · exact h0 (by rw [hemp]; rfl)
      · rcases h1 with hlt | ⟨hput, hne5⟩
        · omega
        · exact hne5 (hput5 hput)
    · next h1 =>
      split at h
      · next hp =>
        cases h
        refine ⟨?_, Or.inr (Or.inl rfl)⟩
        rintro (hemp | ⟨_, _, hparse, _⟩)
        · exact h0 (by rw [hemp]; rfl)
        · exact hparse hp
      · next t hp =>
        split at h
        · next h2 =>
          split at h
          · next hsz =>
            cases h
            refine ⟨?_, Or.inr (Or.inr rfl)⟩
            rintro (hemp | ⟨_, _, _, hputsz⟩)
            · exact h0 (by rw [hemp]; rfl)
            · exact hputsz h2 hsz
          · exact Except.noConfusion h
        · next h2 =>
          split at h
          · next h3 =>
            obtain ⟨s'', heq, _⟩ := doGet_ok_WF (touch_WF hw t) t _
            rw [heq] at h
            exact Except.noConfusion h
          · exact Except.noConfusion h

theorem processLine_ok_of_lineOK {s : State} {l : String} (hw : WF s) (hok : lineOK l) :
    ∃ s' : State, processLine s l = .ok s' := by
  cases hres : processLine s l with
  | ok s' => exact ⟨s', rfl⟩
  | error err => exact absurd hok (processLine_error_not_lineOK hw hres).1

theorem processLine_no_nilDeref {s : State} (hw : WF s) :
    ∀ l, processLine s l ≠ .error .nilDeref := by
  intro l h
  rcases (processLine_error_not_lineOK hw h).2 with h' | h' | h' <;> cases h'

theorem processLines_error_at {bad : String} (hnok : ¬ lineOK bad) (rest : List String) :
    ∀ (pre : List String) {s : State}, WF s → SumInv s → (∀ l ∈ pre, lineOK l) →
      ∃ err, processLines s (pre ++ bad :: rest) = .error err ∧
        (err = .badLine bad ∨ err = .badTime bad ∨ err = .badSize bad) := by
  intro pre
  induction pre with
  | nil =>
    intro s hw hs hpre
    cases hres : processLine s bad with
    | ok s' => exact absurd (processLine_ok_lineOK hres) hnok
    | error err =>
      obtain ⟨_, hshape⟩ := processLine_error_not_lineOK hw hres
      refine ⟨err, ?_, hshape⟩
      show processLines s (bad :: rest) = .error err
      simp only [processLines]
      rw [hres]
  | cons l pre' ih =>
    intro s hw hs hpre
    obtain ⟨s1, h1⟩ := processLine_ok_of_lineOK hw (hpre l (by simp))
    obtain ⟨hw1, hs1⟩ := processLine_WF_SumInv hw hs h1
    obtain ⟨err, herr, hshape⟩ := ih hw1 hs1 (fun x hx => hpre x (by simp [hx]))
    refine ⟨err, ?_, hshape⟩
    show processLines s ((l :: pre') ++ bad :: rest) = .error err
    rw [List.cons_append]
    simp only [processLines]
    rw [h1]
    exact herr

end Simple

/-- C4.  If every line before `bad` validates and `bad` is malformed (too
few fields, a put with field count ≠ 5, an unparsable timestamp, or a put
with an unparsable size), the whole scan aborts with the fatal error named
at `bad`, whatever follows; no final state — hence no statistics — is
produced. -/
theorem claim_C4_malformed_aborts (pre : List String) (bad : String) (rest : List String)
    (hpre : ∀ l ∈ pre, lineOK l) (hbad : ¬ lineOK bad) :
    ∃ err, Simple.scanLog (pre ++ bad :: rest) = .error err ∧
      (err = .badLine bad ∨ err = .badTime bad ∨ err = .badSize bad) :=
  Simple.processLines_error_at hbad rest pre Simple.WF_init ⟨rfl, rfl⟩ hpre

/-- Witness for C4: the spec's malformed 4-field put line aborts the scan
even with a well-formed line before it and another line after it. -/
theorem claim_C4_malformed_aborts_witness :
    ∃ err, Simple.scanLog (["5 put A D 7"] ++ "100 put a b" :: ["2 get A"]) = .error err ∧
      (err = .badLine "100 put a b" ∨ err = .badTime "100 put a b" ∨
       err = .badSize "100 put a b") :=
  claim_C4_malformed_aborts ["5 put A D 7"] "100 put a b" ["2 get A"]
    (by decide) (by decide)

/-- C5.  First-write-wins: a put line whose action key is already registered
leaves that action entry (its created, size and data pointer — the entry is
unchanged verbatim, so the data reference is never re-pointed), its registry
binding and `totalA` untouched; a put whose data key is already registered
leaves that data entry and `totalD` untouched.  Moreover every processed
line preserves every existing entry's created, size and data fields
(`heapSim`), so a data reference is never re-pointed after creation. -/
theorem claim_C5_first_write_wins (s : Simple.State) (line : String) (s' : Simple.State)
    (h : Simple.processLine s line = .ok s') :
    ((fields line).getD 1 "" = "put" →
      (∀ (a : Nat) (e : Simple.entry),
          List.lookup ((fields line).getD 2 "" ++ "-a") s.cache = some a →
          s.heap[a]? = some e →
          s'.heap[a]? = some e ∧
          List.lookup ((fields line).getD 2 "" ++ "-a") s'.cache = some a ∧
          s'.totalA = s.totalA) ∧
      (∀ (d : Nat) (e : Simple.entry),
          List.lookup ((fields line).getD 3 "" ++ "-d") s.cache = some d →
          s.heap[d]? = some e →
          s'.heap[d]? = some e ∧ s'.totalD = s.totalD)) ∧
    Simple.heapSim s.heap s'.heap := by
  refine ⟨?_, Simple.processLine_heapSim h⟩
  intro hput
  unfold Simple.processLine at h
  split at h
  · next h0 =>
    exfalso
    rw [List.length_eq_zero.mp h0] at hput
    exact absurd hput (by decide)
  · next h0 =>
    split at h
    · exact Except.noConfusion h
    · next h1 =>
      split at h
      · exact Except.noConfusion h
      · next t hp =>
        split at h
        · exact Except.noConfusion h
        · next sz hsz =>
          cases h
          constructor
          · intro a e hl he
            have hfr := @Simple.doPut_actionKey_frame (Simple.touch s t) t sz
              ((fields line).getD 2 "") ((fields line).getD 3 "") a e hl he
            exact ⟨hfr.1, hfr.2.1, hfr.2.2⟩
          · intro d e hl he
            have hfr := @Simple.doPut_dataKey_frame (Simple.touch s t) t sz
              ((fields line).getD 2 "") ((fields line).getD 3 "") d e hl he
            exact hfr

/-- Witness for C5: after `5 put A D 7`, the put `6 put A E 9` re-names
action key A (with a fresh data key E); the action entry at address 1 is
unchanged verbatim, still bound to address 1, and `totalA` stays 154. -/
theorem claim_C5_first_write_wins_witness :
    ({ totalA := 154, totalReusedA := 0, totalD := 16, totalReusedD := 0
       reuseA := [], reuseD := [], firstTime := 5, lastTime := 6
       cache := [("E-d", 2), ("A-a", 1), ("D-d", 0)]
       heap := [{ created := 5, size := 7, reused := false, data := none },
                { created := 5, size := 154, reused := false, data := some 0 },
                { created := 6, size := 9, reused := false, data := none }] } :
        Simple.State).heap[1]? =
      some { created := 5, size := 154, reused := false, data := some 0 } ∧
    List.lookup ("A" ++ "-a")
      ({ totalA := 154, totalReusedA := 0, totalD := 16, totalReusedD := 0
         reuseA := [], reuseD := [], firstTime := 5, lastTime := 6
         cache := [("E-d", 2), ("A-a", 1), ("D-d", 0)]
         heap := [{ created := 5, size := 7, reused := false, data := none },
                  { created := 5, size := 154, reused := false, data := some 0 },
                  { created := 6, size := 9, reused := false, data := none }] } :
          Simple.State).cache = some 1 ∧
    (154 : Int) = 154 :=
  ((claim_C5_first_write_wins
      { totalA := 154, totalReusedA := 0, totalD := 7, totalReusedD := 0
        reuseA := [], reuseD := [], firstTime := 5, lastTime := 5
        cache := [("A-a", 1), ("D-d", 0)]
        heap := [{ created := 5, size := 7, reused := false, data := none },
                 { created := 5, size := 154, reused := false, data := some 0 }] }
      "6 put A E 9" _ rfl).1 rfl).1 1
    { created := 5, size := 154, reused := false, data := some 0 } rfl rfl

namespace Ext

@[simp] theorem touch_firstTime_x (s : State) (t : Int) :
    (touch s t).firstTime = if s.firstTime = 0 then t else s.firstTime := rfl

@[simp] theorem touch_lastTime_x (s : State) (t : Int) : (touch s t).lastTime = t := rfl

@[simp] theorem touch_cache_x (s : State) (t : Int) : (touch s t).cache = s.cache := rfl

@[simp] theorem touch_heap_x (s : State) (t : Int) : (touch s t).heap = s.heap := rfl

@[simp] theorem touch_totalA_x (s : State) (t : Int) : (touch s t).totalA = s.totalA := rfl

@[simp] theorem touch_totalD_x (s : State) (t : Int) : (touch s t).totalD = s.totalD := rfl

@[simp] theorem touch_totalReusedA_x (s : State) (t : Int) :
    (touch s t).totalReusedA = s.totalReusedA := rfl

@[simp] theorem touch_totalReusedD_x (s : State) (t : Int) :
    (touch s t).totalReusedD = s.totalReusedD := rfl

@[simp] theorem touch_reuseA_x (s : State) (t : Int) : (touch s t).reuseA = s.reuseA := rfl

@[simp] theorem touch_reuseD_x (s : State) (t : Int) : (touch s t).reuseD = s.reuseD := rfl

@[simp] theorem touch_reuseDeltaA (s : State) (t : Int) :
    (touch s t).reuseDeltaA = s.reuseDeltaA := rfl

@[simp] theorem touch_reuseDeltaD (s : State) (t : Int) :
    (touch s t).reuseDeltaD = s.reuseDeltaD := rfl

theorem putData_cases_x (s : State) (t sz : Int) (k : String) :
    (∃ d0 : Nat, List.lookup (k ++ "-d") s.cache = some d0 ∧ putData s t sz k = (s, d0)) ∨
    (List.lookup (k ++ "-d") s.cache = none ∧
     putData s t sz k =
       ({ s with heap := s.heap ++
            [{ created := t, lastReused := 0, size := sz, reused := false, data := none }]
                 cache := (k ++ "-d", s.heap.length) :: s.cache
                 totalD := s.totalD + sz },
        s.heap.length)) := by
  unfold putData
  cases hld : List.lookup (k ++ "-d") s.cache with
  | none => exact Or.inr ⟨rfl, rfl⟩
  | some d0 => exact Or.inl ⟨d0, rfl, rfl⟩

theorem putAction_cases_x (s : State) (t : Int) (d : Nat) (k : String) :
    (∃ a0 : Nat, List.lookup (k ++ "-a") s.cache = some a0 ∧ putAction s t d k = s) ∨
    (List.lookup (k ++ "-a") s.cache = none ∧
     putAction s t d k =
       { s with heap := s.heap ++
           [{ created := t, lastReused := 0, size := 154, reused := false, data := some d }]
                cache := (k ++ "-a", s.heap.length) :: s.cache
                totalA := s.totalA + 154 }) := by
  unfold putAction
  cases hla : List.lookup (k ++ "-a") s.cache with
  | none => exact Or.inr ⟨rfl, rfl⟩
  | some a0 => exact Or.inl ⟨a0, rfl, rfl⟩

@[simp] theorem putData_fst_firstTime_x (s : State) (t sz : Int) (k : String) :
    (putData s t sz k).1.firstTime = s.firstTime := by
  unfold putData; cases h : List.lookup (k ++ "-d") s.cache <;> simp [h]

@[simp] theorem putData_fst_lastTime_x (s : State) (t sz : Int) (k : String) :
    (putData s t sz k).1.lastTime = s.lastTime := by
  unfold putData; cases h : List.lookup (k ++ "-d") s.cache <;> simp [h]

@[simp] theorem putData_fst_totalA_x (s : State) (t sz : Int) (k : String) :
    (putData s t sz k).1.totalA = s.totalA := by
  unfold putData; cases h : List.lookup (k ++ "-d") s.cache <;> simp [h]

@[simp] theorem putData_fst_totalReusedA_x (s : State) (t sz : Int) (k : String) :
    (putData s t sz k).1.totalReusedA = s.totalReusedA := by
  unfold putData; cases h : List.lookup (k ++ "-d") s.cache <;> simp [h]

@[simp] theorem putData_fst_totalReusedD_x (s : State) (t sz : Int) (k : String) :
    (putData s t sz k).1.totalReusedD = s.totalReusedD := by
  unfold putData; cases h : List.lookup (k ++ "-d") s.cache <;> simp [h]

@[simp] theorem putData_fst_reuseA_x (s : State) (t sz : Int) (k : String) :
    (putData s t sz k).1.reuseA = s.reuseA := by
  unfold putData; cases h : List.lookup (k ++ "-d") s.cache <;> simp [h]

@[simp] theorem putData_fst_reuseD_x (s : State) (t sz : Int) (k : String) :
    (putData s t sz k).1.reuseD = s.reuseD := by
  unfold putData; cases h : List.lookup (k ++ "-d") s.cache <;> simp [h]

@[simp] theorem putData_fst_reuseDeltaA (s : State) (t sz : Int) (k : String) :
    (putData s t sz k).1.reuseDeltaA = s.reuseDeltaA := by
  unfold putData; cases h : List.lookup (k ++ "-d") s.cache <;> simp [h]

@[simp] theorem putData_fst_reuseDeltaD (s : State) (t sz : Int) (k : String) :
    (putData s t sz k).1.reuseDeltaD = s.reuseDeltaD := by
  unfold putData; cases h : List.lookup (k ++ "-d") s.cache <;> simp [h]

@[simp] theorem putAction_firstTime_x (s : State) (t : Int) (d : Nat) (k : String) :
    (putAction s t d k).firstTime = s.firstTime := by
  unfold putAction; cases h : List.lookup (k ++ "-a") s.cache <;> simp [h]

@[simp] theorem putAction_lastTime_x (s : State) (t : Int) (d : Nat) (k : String) :
    (putAction s t d k).lastTime = s.lastTime := by
  unfold putAction; cases h : List.lookup (k ++ "-a") s.cache <;> simp [h]

@[simp] theorem putAction_totalD_x (s : State) (t : Int) (d : Nat) (k : String) :
    (putAction s t d k).totalD = s.totalD := by
  unfold putAction; cases h : List.lookup (k ++ "-a") s.cache <;> simp [h]

@[simp] theorem putAction_totalReusedA_x (s : State) (t : Int) (d : Nat) (k : String) :
    (putAction s t d k).totalReusedA = s.totalReusedA := by
  unfold putAction; cases h : List.lookup (k ++ "-a") s.cache <;> simp [h]

@[simp] theorem putAction_totalReusedD_x (s : State) (t : Int) (d : Nat) (k : String) :
    (putAction s t d k).totalReusedD = s.totalReusedD := by
  unfold putAction; cases h : List.lookup (k ++ "-a") s.cache <;> simp [h]

@[simp] theorem putAction_reuseA_x (s : State) (t : Int) (d : Nat) (k : String) :
    (putAction s t d k).reuseA = s.reuseA := by
  unfold putAction; cases h : List.lookup (k ++ "-a") s.cache <;> simp [h]

@[simp] theorem putAction_reuseD_x (s : State) (t : Int) (d : Nat) (k : String) :
    (putAction s t d k).reuseD = s.reuseD := by
  unfold putAction; cases h : List.lookup (k ++ "-a") s.cache <;> simp [h]

@[simp] theorem putAction_reuseDeltaA (s : State) (t : Int) (d : Nat) (k : String) :
    (putAction s t d k).reuseDeltaA = s.reuseDeltaA := by
  unfold putAction; cases h : List.lookup (k ++ "-a") s.cache <;> simp [h]

@[simp] theorem putAction_reuseDeltaD (s : State) (t : Int) (d : Nat) (k : String) :
    (putAction s t d k).reuseDeltaD = s.reuseDeltaD := by
  unfold putAction; cases h : List.lookup (k ++ "-a") s.cache <;> simp [h]

@[simp] theorem doPut_firstTime_x (s : State) (t sz : Int) (a d : String) :
    (doPut s t sz a d).firstTime = s.firstTime := by simp [doPut]

@[simp] theorem doPut_lastTime_x (s : State) (t sz : Int) (a d : String) :
    (doPut s t sz a d).lastTime = s.lastTime := by simp [doPut]

@[simp] theorem doPut_totalReusedA_x (s : State) (t sz : Int) (a d : String) :
    (doPut s t sz a d).totalReusedA = s.totalReusedA := by simp [doPut]

@[simp] theorem doPut_totalReusedD_x (s : State) (t sz : Int) (a d : String) :
    (doPut s t sz a d).totalReusedD = s.totalReusedD := by simp [doPut]

@[simp] theorem doPut_reuseA_x (s : State) (t sz : Int) (a d : String) :
    (doPut s t sz a d).reuseA = s.reuseA := by simp [doPut]

@[simp] theorem doPut_reuseD_x (s : State) (t sz : Int) (a d : String) :
    (doPut s t sz a d).reuseD = s.reuseD := by simp [doPut]

@[simp] theorem doPut_reuseDeltaA (s : State) (t sz : Int) (a d : String) :
    (doPut s t sz a d).reuseDeltaA = s.reuseDeltaA := by simp [doPut]

@[simp] theorem doPut_reuseDeltaD (s : State) (t sz : Int) (a d : String) :
    (doPut s t sz a d).reuseDeltaD = s.reuseDeltaD := by simp [doPut]

@[simp] theorem reuseActionX_firstTime (s : State) (a : Nat) (e : entry) :
    (reuseActionX s a e).firstTime = s.firstTime := by
  unfold reuseActionX; split <;> rfl

@[simp] theorem reuseActionX_lastTime (s : State) (a : Nat) (e : entry) :
    (reuseActionX s a e).lastTime = s.lastTime := by
  unfold reuseActionX; split <;> rfl

@[simp] theorem reuseActionX_totalA (s : State) (a : Nat) (e : entry) :
    (reuseActionX s a e).totalA = s.totalA := by
  unfold reuseActionX; split <;> rfl

@[simp] theorem reuseActionX_totalD (s : State) (a : Nat) (e : entry) :
    (reuseActionX s a e).totalD = s.totalD := by
  unfold reuseActionX; split <;> rfl

@[simp] theorem reuseActionX_totalReusedD (s : State) (a : Nat) (e : entry) :
    (reuseActionX s a e).totalReusedD = s.totalReusedD := by
  unfold reuseActionX; split <;> rfl

@[simp] theorem reuseActionX_reuseA (s : State) (a : Nat) (e : entry) :
    (reuseActionX s a e).reuseA = s.reuseA := by
  unfold reuseActionX; split <;> rfl

@[simp] theorem reuseActionX_reuseD (s : State) (a : Nat) (e : entry) :
    (reuseActionX s a e).reuseD = s.reuseD := by
  unfold reuseActionX; split <;> rfl

@[simp] theorem reuseActionX_reuseDeltaA (s : State) (a : Nat) (e : entry) :
    (reuseActionX s a e).reuseDeltaA = s.reuseDeltaA := by
  unfold reuseActionX; split <;> rfl

@[simp] theorem reuseActionX_reuseDeltaD (s : State) (a : Nat) (e : entry) :
    (reuseActionX s a e).reuseDeltaD = s.reuseDeltaD := by
  unfold reuseActionX; split <;> rfl

@[simp] theorem reuseActionX_cache (s : State) (a : Nat) (e : entry) :
    (reuseActionX s a e).cache = s.cache := by
  unfold reuseActionX; split <;> rfl

@[simp] theorem reuseDataX_firstTime (s : State) (d : Nat) (e : entry) :
    (reuseDataX s d e).firstTime = s.firstTime := by
  unfold reuseDataX; split <;> rfl

@[simp] theorem reuseDataX_lastTime (s : State) (d : Nat) (e : entry) :
    (reuseDataX s d e).lastTime = s.lastTime := by
  unfold reuseDataX; split <;> rfl

@[simp] theorem reuseDataX_totalA (s : State) (d : Nat) (e : entry) :
    (reuseDataX s d e).totalA = s.totalA := by
  unfold reuseDataX; split <;> rfl

@[simp] theorem reuseDataX_totalD (s : State) (d : Nat) (e : entry) :
    (reuseDataX s d e).totalD = s.totalD := by
  unfold reuseDataX; split <;> rfl

@[simp] theorem reuseDataX_totalReusedA (s : State) (d : Nat) (e : entry) :
    (reuseDataX s d e).totalReusedA = s.totalReusedA := by
  unfold reuseDataX; split <;> rfl

@[simp] theorem reuseDataX_reuseA (s : State) (d : Nat) (e : entry) :
    (reuseDataX s d e).reuseA = s.reuseA := by
  unfold reuseDataX; split <;> rfl

@[simp] theorem reuseDataX_reuseD (s : State) (d : Nat) (e : entry) :
    (reuseDataX s d e).reuseD = s.reuseD := by
  unfold reuseDataX; split <;> rfl

@[simp] theorem reuseDataX_reuseDeltaA (s : State) (d : Nat) (e : entry) :
    (reuseDataX s d e).reuseDeltaA = s.reuseDeltaA := by
  unfold reuseDataX; split <;> rfl

@[simp] theorem reuseDataX_reuseDeltaD (s : State) (d : Nat) (e : entry) :
    (reuseDataX s d e).reuseDeltaD = s.reuseDeltaD := by
  unfold reuseDataX; split <;> rfl

@[simp] theorem reuseDataX_cache (s : State) (d : Nat) (e : entry) :
    (reuseDataX s d e).cache = s.cache := by
  unfold reuseDataX; split <;> rfl

theorem doGet_len {s s' : State} {t : Int} {k : String} (h : doGet s t k = .ok s') :
    (s'.reuseA = s.reuseA ∧ s'.reuseD = s.reuseD ∧
     s'.reuseDeltaA = s.reuseDeltaA ∧ s'.reuseDeltaD = s.reuseDeltaD) ∨
    (s'.reuseA.length = s.reuseA.length + 1 ∧ s'.reuseD.length = s.reuseD.length + 1 ∧
     s'.reuseDeltaA.length = s.reuseDeltaA.length + 1 ∧
     s'.reuseDeltaD.length = s.reuseDeltaD.length + 1) := by
  unfold doGet at h
  split at h
  · cases h
    exact Or.inl ⟨rfl, rfl, rfl, rfl⟩
  · split at h
    · exact Except.noConfusion h
    · split at h
      · exact Except.noConfusion h
      · split at h
        · exact Except.noConfusion h
        · cases h
          right
          refine ⟨?_, ?_, ?_, ?_⟩ <;> simp

theorem processLine_len {s s' : State} {l : String} (h : processLine s l = .ok s') :
    (s'.reuseA.length = s.reuseA.length ∧ s'.reuseD.length = s.reuseD.length ∧
     s'.reuseDeltaA.length = s.reuseDeltaA.length ∧
     s'.reuseDeltaD.length = s.reuseDeltaD.length) ∨
    (s'.reuseA.length = s.reuseA.length + 1 ∧ s'.reuseD.length = s.reuseD.length + 1 ∧
     s'.reuseDeltaA.length = s.reuseDeltaA.length + 1 ∧
     s'.reuseDeltaD.length = s.reuseDeltaD.length + 1) := by
  unfold processLine at h
  split at h
  · cases h
    exact Or.inl ⟨rfl, rfl, rfl, rfl⟩
  · split at h
    · exact Except.noConfusion h
    · split at h
      · exact Except.noConfusion h
      · next t hp =>
        split at h
        · split at h
          · exact Except.noConfusion h
          · cases h
            left
            refine ⟨?_, ?_, ?_, ?_⟩ <;> simp
        · split at h
          · rcases doGet_len h with ⟨h1, h2, h3, h4⟩ | ⟨h1, h2, h3, h4⟩
            · left
              rw [h1, h2, h3, h4]
              exact ⟨rfl, rfl, rfl, rfl⟩
            · right
              rw [h1, h2, h3, h4]
              exact ⟨rfl, rfl, rfl, rfl⟩
          · cases h
            left
            exact ⟨rfl, rfl, rfl, rfl⟩

theorem processLines_len {ls : List String} :
    ∀ {s s' : State}, processLines s ls = .ok s' →
      s.reuseA.length = s.reuseD.length →
      s.reuseDeltaA.length = s.reuseA.length →
      s.reuseDeltaD.length = s.reuseA.length →
      s'.reuseA.length = s'.reuseD.length ∧
      s'.reuseDeltaA.length = s'.reuseA.length ∧
      s'.reuseDeltaD.length = s'.reuseA.length := by
  induction ls with
  | nil =>
    intro s s' h h1 h2 h3
    cases h
    exact ⟨h1, h2, h3⟩
  | cons l rest ih =>
    intro s s' h h1 h2 h3
    unfold processLines at h
    cases hpl : processLine s l with
    | error e => rw [hpl] at h; exact Except.noConfusion h
    | ok s1 =>
      rw [hpl] at h
      rcases processLine_len hpl with ⟨g1, g2, g3, g4⟩ | ⟨g1, g2, g3, g4⟩ <;>
        exact ih h (by omega) (by omega) (by omega)

end Ext


namespace Simple

theorem doGet_len_x {s s' : State} {t : Int} {k : String} (h : doGet s t k = .ok s') :
    (s'.reuseA = s.reuseA ∧ s'.reuseD = s.reuseD) ∨
    (s'.reuseA.length = s.reuseA.length + 1 ∧ s'.reuseD.length = s.reuseD.length + 1) := by
  unfold doGet at h
  split at h
  · cases h
    exact Or.inl ⟨rfl, rfl⟩
  · split at h
    · exact Except.noConfusion h
    · split at h
      · exact Except.noConfusion h
      · split at h
        · exact Except.noConfusion h
        · cases h
          right
          refine ⟨?_, ?_⟩ <;> simp

theorem processLine_len_x {s s' : State} {l : String} (h : processLine s l = .ok s') :
    (s'.reuseA.length = s.reuseA.length ∧ s'.reuseD.length = s.reuseD.length) ∨
    (s'.reuseA.length = s.reuseA.length + 1 ∧ s'.reuseD.length = s.reuseD.length + 1) := by
  unfold processLine at h
  split at h
  · cases h
    exact Or.inl ⟨rfl, rfl⟩
  · split at h
    · exact Except.noConfusion h
    · split at h
      · exact Except.noConfusion h
      · next t hp =>
        split at h
        · split at h
          · exact Except.noConfusion h
          · cases h
            left
            refine ⟨?_, ?_⟩ <;> simp
        · split at h
          · rcases doGet_len_x h with ⟨h1, h2⟩ | ⟨h1, h2⟩
            · left
              rw [h1, h2]
              exact ⟨rfl, rfl⟩
            · right
              rw [h1, h2]
              exact ⟨rfl, rfl⟩
          · cases h
            left
            exact ⟨rfl, rfl⟩

theorem processLines_len_x {ls : List String} :
    ∀ {s s' : State}, processLines s ls = .ok s' →
      s.reuseA.length = s.reuseD.length →
      s'.reuseA.length = s'.reuseD.length := by
  induction ls with
  | nil =>
    intro s s' h h1
    cases h
    exact h1
  | cons l rest ih =>
    intro s s' h h1
    unfold processLines at h
    cases hpl : processLine s l with
    | error e => rw [hpl] at h; exact Except.noConfusion h
    | ok s1 =>
      rw [hpl] at h
      rcases processLine_len_x hpl with ⟨g1, g2⟩ | ⟨g1, g2⟩ <;>
        exact ih h (by omega)

end Simple

namespace Ext

theorem deltaIdx_lt {lenR lenD : Nat} (heq : lenR = lenD) (hpos : 0 < lenR) :
    (∀ j ∈ deltaIdx lenR lenD, j < lenD) ∧ lenR - 1 < lenD := by
  subst heq
  refine ⟨?_, Nat.sub_lt hpos Nat.one_pos⟩
  intro j hj
  simp only [deltaIdx, List.mem_cons, List.not_mem_nil, or_false] at hj
  rcases hj with rfl | rfl | rfl | rfl | rfl | rfl | rfl | rfl | rfl | rfl | rfl | rfl <;>
    exact Simple.mul_div_lt_self hpos (by decide)

end Ext

/-- C10.  After any scan the action- and data-reuse sample sequences have
the same length (every get/miss on a known action key appends one element
to each); in the extended variant the two delta sequences also keep that
same length; consequently all indices the extended reporter computes from
`len(reuse)` (and the 10..90 loop's indices from `len(reuseDelta)`) are
within the delta sequence's bounds, including its final `len(reuse)-1`
access. -/
theorem claim_C10_sample_lengths :
    (∀ (lines : List String) (s : Simple.State), Simple.scanLog lines = .ok s →
       s.reuseA.length = s.reuseD.length) ∧
    (∀ (lines : List String) (x : Ext.State), Ext.scanLog lines = .ok x →
       x.reuseA.length = x.reuseD.length ∧ x.reuseDeltaA.length = x.reuseA.length ∧
       x.reuseDeltaD.length = x.reuseA.length) ∧
    (∀ (reuse reuseDelta : List Int), reuse.length = reuseDelta.length → reuse ≠ [] →
       (∀ j ∈ Ext.deltaIdx reuse.length reuseDelta.length, j < reuseDelta.length) ∧
       reuse.length - 1 < reuseDelta.length) := by
  refine ⟨?_, ?_, ?_⟩
  · intro lines s h
    exact Simple.processLines_len_x h rfl
  · intro lines x h
    exact Ext.processLines_len h rfl rfl rfl
  · intro reuse reuseDelta heq hne
    have hpos : 0 < reuse.length :=
      Nat.pos_of_ne_zero (fun hc => hne (List.length_eq_zero.mp hc))
    exact Ext.deltaIdx_lt heq hpos

/-- Witness for C10 on the extended scan of `["5 put A D 7", "9 get A"]` and
on the singleton sample pair. -/
theorem claim_C10_sample_lengths_witness :
    (({ totalA := 154, totalReusedA := 154, totalD := 7, totalReusedD := 7
        reuseA := [4], reuseD := [4], reuseDeltaA := [4], reuseDeltaD := [4]
        firstTime := 5, lastTime := 9
        cache := [("A-a", 1), ("D-d", 0)]
        heap := [{ created := 5, lastReused := 9, size := 7, reused := false,
                   data := none },
                 { created := 5, lastReused := 9, size := 154, reused := false,
                   data := some 0 }] } : Ext.State).reuseA.length =
       ({ totalA := 154, totalReusedA := 154, totalD := 7, totalReusedD := 7
          reuseA := [4], reuseD := [4], reuseDeltaA := [4], reuseDeltaD := [4]
          firstTime := 5, lastTime := 9
          cache := [("A-a", 1), ("D-d", 0)]
          heap := [{ created := 5, lastReused := 9, size := 7, reused := false,
                     data := none },
                   { created := 5, lastReused := 9, size := 154, reused := false,
                     data := some 0 }] } : Ext.State).reuseD.length) ∧
    ([(4 : Int)].length - 1 < [(4 : Int)].length) :=
  ⟨(claim_C10_sample_lengths.2.1 ["5 put A D 7", "9 get A"] _ rfl).1,
   (claim_C10_sample_lengths.2.2 [4] [4] rfl (by decide)).2⟩


theorem heapR_get {hs : List Simple.entry} {hx : List Ext.entry} (h : heapR hs hx) :
    ∀ {i : Nat} {e : Simple.entry}, hs[i]? = some e →
      ∃ ex : Ext.entry, hx[i]? = some ex ∧ entRel e ex := by
  unfold heapR at h
  induction h with
  | nil =>
    intro i e he
    cases he
  | cons hrel htail ih =>
    intro i e he
    cases i with
    | zero =>
      rw [List.getElem?_cons_zero] at he
      cases he
      exact ⟨_, List.getElem?_cons_zero, hrel⟩
    | succ n =>
      rw [List.getElem?_cons_succ] at he
      obtain ⟨ex, hex, hr⟩ := ih he
      exact ⟨ex, by rw [List.getElem?_cons_succ]; exact hex, hr⟩

theorem heapR_set {hs : List Simple.entry} {hx : List Ext.entry} (h : heapR hs hx) :
    ∀ {i : Nat} {e' : Simple.entry} {ex' : Ext.entry}, entRel e' ex' →
      heapR (hs.set i e') (hx.set i ex') := by
  unfold heapR at h ⊢
  induction h with
  | nil =>
    intro i e' ex' hr
    exact List.Forall₂.nil
  | cons hrel htail ih =>
    intro i e' ex' hr
    cases i with
    | zero => exact List.Forall₂.cons hr htail
    | succ n => exact List.Forall₂.cons hrel (ih hr)

theorem heapR_append1 {hs : List Simple.entry} {hx : List Ext.entry} (h : heapR hs hx)
    {e : Simple.entry} {ex : Ext.entry} (hr : entRel e ex) :
    heapR (hs ++ [e]) (hx ++ [ex]) :=
  List.rel_append h (List.Forall₂.cons hr List.Forall₂.nil)

theorem heapR_sums {hs : List Simple.entry} {hx : List Ext.entry} (h : heapR hs hx) :
    Simple.reusedSumA hs = Ext.reusedSumA hx ∧ Simple.reusedSumD hs = Ext.reusedSumD hx := by
  unfold heapR at h
  induction h with
  | nil => exact ⟨rfl, rfl⟩
  | @cons es ex l1 l2 hrel htail ih =>
    obtain ⟨hcr, hsz, hdat, hflag⟩ := hrel
    constructor
    · show Simple.reusedSumA (es :: l1) = Ext.reusedSumA (ex :: l2)
      unfold Simple.reusedSumA Ext.reusedSumA
      rw [List.map_cons, List.sum_cons, List.map_cons, List.sum_cons]
      have hwa : Simple.entryWeightA es = Ext.entryWeightA ex := by
        unfold Simple.entryWeightA Ext.entryWeightA
        rw [hdat, hsz]
        exact if_congr (and_congr_right fun _ => hflag.symm) rfl rfl
      rw [hwa]
      have hih := ih.1
      unfold Simple.reusedSumA Ext.reusedSumA at hih
      rw [hih]
    · show Simple.reusedSumD (es :: l1) = Ext.reusedSumD (ex :: l2)
      unfold Simple.reusedSumD Ext.reusedSumD
      rw [List.map_cons, List.sum_cons, List.map_cons, List.sum_cons]
      have hwd : Simple.entryWeightD es = Ext.entryWeightD ex := by
        unfold Simple.entryWeightD Ext.entryWeightD
        rw [hdat, hsz]
        exact if_congr (and_congr_right fun _ => hflag.symm) rfl rfl
      rw [hwd]
      have hih := ih.2
      unfold Simple.reusedSumD Ext.reusedSumD at hih
      rw [hih]

theorem touch_rel {s : Simple.State} {x : Ext.State} (hr : StRel s x) (t : Int) :
    StRel (Simple.touch s t) (Ext.touch x t) := by
  obtain ⟨hA, hRA, hD, hRD, hrA, hrD, hF, hL, hC, hH⟩ := hr
  exact ⟨hA, hRA, hD, hRD, hrA, hrD, by simp [Simple.touch, Ext.touch, hF], rfl, hC, hH⟩

theorem putAction_rel {s : Simple.State} {x : Ext.State} (hr : StRel s x) (t : Int)
    (d : Nat) (k : String) : StRel (Simple.putAction s t d k) (Ext.putAction x t d k) := by
  obtain ⟨hA, hRA, hD, hRD, hrA, hrD, hF, hL, hC, hH⟩ := hr
  have hlen : s.heap.length = x.heap.length := List.Forall₂.length_eq hH
  rcases Simple.putAction_cases s t d k with ⟨a0, hla, hpa⟩ | ⟨hla, hpa⟩
  · have hlax : List.lookup (k ++ "-a") x.cache = some a0 := by rw [hC]; exact hla
    rcases Ext.putAction_cases_x x t d k with ⟨a0', hla', hpa'⟩ | ⟨hla', hpa'⟩
    · rw [hpa, hpa']
      exact ⟨hA, hRA, hD, hRD, hrA, hrD, hF, hL, hC, hH⟩
    · rw [hlax] at hla'
      cases hla'
  · have hlax : List.lookup (k ++ "-a") x.cache = none := by rw [hC]; exact hla
    rcases Ext.putAction_cases_x x t d k with ⟨a0', hla', hpa'⟩ | ⟨hla', hpa'⟩
    · rw [hlax] at hla'
      cases hla'
    · rw [hpa, hpa']
      refine ⟨?_, hRA, hD, hRD, hrA, hrD, hF, hL, ?_, ?_⟩
      · show x.totalA + 154 = s.totalA + 154
        rw [hA]
      · show (k ++ "-a", x.heap.length) :: x.cache = (k ++ "-a", s.heap.length) :: s.cache
        rw [hC, hlen]
      · show heapR (s.heap ++ [_]) (x.heap ++ [_])
        exact heapR_append1 hH ⟨rfl, rfl, rfl, by simp⟩

theorem doPut_rel {s : Simple.State} {x : Ext.State} (hr : StRel s x) (t sz : Int)
    (aKey dKey : String) :
    StRel (Simple.doPut s t sz aKey dKey) (Ext.doPut x t sz aKey dKey) := by
  obtain ⟨hA, hRA, hD, hRD, hrA, hrD, hF, hL, hC, hH⟩ := hr
  have hlen : s.heap.length = x.heap.length := List.Forall₂.length_eq hH
  unfold Simple.doPut Ext.doPut
  rcases Simple.putData_cases s t sz dKey with ⟨d0, hld, hpd⟩ | ⟨hld, hpd⟩
  · have hldx : List.lookup (dKey ++ "-d") x.cache = some d0 := by rw [hC]; exact hld
    rcases Ext.putData_cases_x x t sz dKey with ⟨d0', hld', hpd'⟩ | ⟨hld', hpd'⟩
    · have hd0 : d0' = d0 := by
        rw [hldx] at hld'
        exact (Option.some.inj hld').symm
      rw [hd0] at hpd'
      simp only [hpd, hpd']
      exact putAction_rel ⟨hA, hRA, hD, hRD, hrA, hrD, hF, hL, hC, hH⟩ t d0 aKey
    · rw [hldx] at hld'
      cases hld'
  · have hldx : List.lookup (dKey ++ "-d") x.cache = none := by rw [hC]; exact hld
    rcases Ext.putData_cases_x x t sz dKey with ⟨d0', hld', hpd'⟩ | ⟨hld', hpd'⟩
    · rw [hldx] at hld'
      cases hld'
    · simp only [hpd, hpd']
      rw [← hlen]
      refine putAction_rel ?_ t s.heap.length aKey
      refine ⟨hA, hRA, ?_, hRD, hrA, hrD, hF, hL, ?_, ?_⟩
      · show x.totalD + sz = s.totalD + sz
        rw [hD]
      · show (dKey ++ "-d", s.heap.length) :: x.cache =
          (dKey ++ "-d", s.heap.length) :: s.cache
        rw [hC]
      · show heapR (s.heap ++ [_]) (x.heap ++ [_])
        exact heapR_append1 hH ⟨rfl, rfl, rfl, by simp⟩


namespace Simple

theorem reuse_stages_heap {s : State} {a d : Nat} {e e1 : entry}
    (he : s.heap[a]? = some e) (he1 : s.heap[d]? = some e1) (hda : d ≠ a) :
    (reuseData (reuseAction s a e) d e1).heap =
      (s.heap.set a { e with reused := true }).set d { e1 with reused := true } := by
  unfold reuseAction reuseData
  by_cases hre : e.reused = true
  · rw [if_pos hre]
    by_cases hre1 : e1.reused = true
    · rw [if_pos hre1]
      show s.heap = _
      rw [entry_set_reused_true_eq hre, set_of_getElem?_some he,
          entry_set_reused_true_eq hre1, set_of_getElem?_some he1]
    · rw [if_neg hre1]
      show s.heap.set d { e1 with reused := true } = _
      rw [entry_set_reused_true_eq hre, set_of_getElem?_some he]
  · rw [if_neg hre]
    by_cases hre1 : e1.reused = true
    · rw [if_pos hre1]
      show s.heap.set a { e with reused := true } = _
      rw [entry_set_reused_true_eq hre1,
          set_of_getElem?_some (show (s.heap.set a { e with reused := true })[d]? = some e1 by
            rw [List.getElem?_set_ne (Ne.symm hda)]
            exact he1)]
    · rw [if_neg hre1]

end Simple

namespace Ext

theorem doGet_eq (t : Int) {x : State} {k : String} {a d : Nat} {ex ex1 : entry}
    (hlx : List.lookup (k ++ "-a") x.cache = some a) (hxe : x.heap[a]? = some ex)
    (hxday : ex.data = some d) (hxge1 : (reuseActionX x a ex).heap[d]? = some ex1) :
    doGet x t k = .ok { reuseDataX (reuseActionX x a ex) d ex1 with
        reuseA := (reuseDataX (reuseActionX x a ex) d ex1).reuseA ++ [t - ex.created]
        reuseD := (reuseDataX (reuseActionX x a ex) d ex1).reuseD ++ [t - ex1.created]
        reuseDeltaA := (reuseDataX (reuseActionX x a ex) d ex1).reuseDeltaA ++
          [t - (afterFirstReuse ex).lastReused]
        reuseDeltaD := (reuseDataX (reuseActionX x a ex) d ex1).reuseDeltaD ++
          [t - (afterFirstReuse ex1).lastReused]
        heap := (((reuseDataX (reuseActionX x a ex) d ex1).heap.set a
                   ({ ex with lastReused := t } : entry)).set d
                   ({ ex1 with lastReused := t } : entry)) } := by
  unfold doGet
  simp only [hlx, hxe, hxday, hxge1]

theorem reuse_stages_heap_x {x : State} {a d : Nat} {ex ex1 : entry} (t : Int)
    (hda : d ≠ a) :
    (((reuseDataX (reuseActionX x a ex) d ex1).heap.set a
        ({ ex with lastReused := t } : entry)).set d
        ({ ex1 with lastReused := t } : entry)) =
      (x.heap.set a { ex with lastReused := t }).set d { ex1 with lastReused := t } := by
  unfold reuseActionX reuseDataX
  by_cases hz : ex.lastReused = 0
  · rw [if_pos hz]
    by_cases hz1 : ex1.lastReused = 0
    · rw [if_pos hz1]
      show (((x.heap.set a (afterFirstReuse ex)).set d (afterFirstReuse ex1)).set a
        ({ ex with lastReused := t } : entry)).set d ({ ex1 with lastReused := t } : entry) = _
      rw [List.set_comm _ _ _ hda, List.set_set, List.set_set]
    · rw [if_neg hz1]
      show ((x.heap.set a (afterFirstReuse ex)).set a
        ({ ex with lastReused := t } : entry)).set d ({ ex1 with lastReused := t } : entry) = _
      rw [List.set_set]
  · rw [if_neg hz]
    by_cases hz1 : ex1.lastReused = 0
    · rw [if_pos hz1]
      show ((x.heap.set d (afterFirstReuse ex1)).set a
        ({ ex with lastReused := t } : entry)).set d ({ ex1 with lastReused := t } : entry) = _
      rw [List.set_comm _ _ _ hda, List.set_set]
    · rw [if_neg hz1]

end Ext

theorem doGet_rel {s : Simple.State} {x : Ext.State} (hw : Simple.WF s) (hr : StRel s x)
    {t : Int} (ht : t ≠ 0) (k : String) :
    ∃ (s' : Simple.State) (x' : Ext.State),
      Simple.doGet s t k = .ok s' ∧ Ext.doGet x t k = .ok x' ∧ Simple.WF s' ∧ StRel s' x' := by
  obtain ⟨hA, hRA, hD, hRD, hrA, hrD, hF, hL, hC, hH⟩ := hr
  rcases Simple.doGet_cases hw t k with ⟨hl, heq⟩ |
    ⟨a, e, d, e1, hl, he, hd, hdne, hda, he1, h1d, hge1, heq⟩
  · have hlx : List.lookup (k ++ "-a") x.cache = none := by rw [hC]; exact hl
    have heqx : Ext.doGet x t k = .ok x := by
      unfold Ext.doGet
      rw [hlx]
    exact ⟨s, x, heq, heqx, hw, hA, hRA, hD, hRD, hrA, hrD, hF, hL, hC, hH⟩
  · obtain ⟨ex, hxe, hrel⟩ := heapR_get hH he
    obtain ⟨ex1, hxe1, hrel1⟩ := heapR_get hH he1
    obtain ⟨hcr, hsz, hdat, hflag⟩ := hrel
    obtain ⟨hcr1, hsz1, hdat1, hflag1⟩ := hrel1
    have hlx : List.lookup (k ++ "-a") x.cache = some a := by rw [hC]; exact hl
    have hxday : ex.data = some d := by rw [hdat]; exact hd
    have hxge1 : (Ext.reuseActionX x a ex).heap[d]? = some ex1 := by
      unfold Ext.reuseActionX
      split
      · rw [List.getElem?_set_ne (Ne.symm hda)]
        exact hxe1
      · exact hxe1
    have heqx := Ext.doGet_eq t hlx hxe hxday hxge1
    refine ⟨_, _, heq, heqx, ?_, ?_⟩
    · have hw2 : Simple.WF (Simple.reuseData (Simple.reuseAction s a e) d e1) :=
        Simple.reuseData_WF (Simple.reuseAction_WF hw he) hge1
      exact ⟨hw2.cacheA, hw2.cacheD, hw2.ptrOK⟩
    · have hsheap := Simple.reuse_stages_heap he he1 hda
      have hxheap := @Ext.reuse_stages_heap_x x a d ex ex1 t hda
      refine ⟨?_, ?_, ?_, ?_, ?_, ?_, ?_, ?_, ?_, ?_⟩
      · show (Ext.reuseDataX (Ext.reuseActionX x a ex) d ex1).totalA =
          (Simple.reuseData (Simple.reuseAction s a e) d e1).totalA
        simp [hA]
      · show (Ext.reuseDataX (Ext.reuseActionX x a ex) d ex1).totalReusedA =
          (Simple.reuseData (Simple.reuseAction s a e) d e1).totalReusedA
        rw [Ext.reuseDataX_totalReusedA, Simple.reuseData_totalReusedA]
        unfold Ext.reuseActionX Simple.reuseAction
        by_cases hre : e.reused = true
        · rw [if_pos hre, if_neg (show ¬ ex.lastReused = 0 from fun hc => hflag.mpr hre hc)]
          exact hRA
        · have hz : ex.lastReused = 0 := by
            by_contra hc
            exact hre (hflag.mp hc)
          rw [if_neg hre, if_pos hz]
          show x.totalReusedA + ex.size = s.totalReusedA + e.size
          rw [hRA, hsz]
      · show (Ext.reuseDataX (Ext.reuseActionX x a ex) d ex1).totalD =
          (Simple.reuseData (Simple.reuseAction s a e) d e1).totalD
        simp [hD]
      · unfold Ext.reuseDataX Simple.reuseData
        by_cases hre1 : e1.reused = true
        · rw [if_pos hre1, if_neg (show ¬ ex1.lastReused = 0 from fun hc => hflag1.mpr hre1 hc)]
          show (Ext.reuseActionX x a ex).totalReusedD = (Simple.reuseAction s a e).totalReusedD
          simp [hRD]
        · have hz1 : ex1.lastReused = 0 := by
            by_contra hc
            exact hre1 (hflag1.mp hc)
          rw [if_neg hre1, if_pos hz1]
          show (Ext.reuseActionX x a ex).totalReusedD + ex1.size =
            (Simple.reuseAction s a e).totalReusedD + e1.size
          rw [Ext.reuseActionX_totalReusedD, Simple.reuseAction_totalReusedD, hRD, hsz1]
      · show (Ext.reuseDataX (Ext.reuseActionX x a ex) d ex1).reuseA ++ [t - ex.created] =
          (Simple.reuseData (Simple.reuseAction s a e) d e1).reuseA ++ [t - e.created]
        rw [Ext.reuseDataX_reuseA, Ext.reuseActionX_reuseA, Simple.reuseData_reuseA,
            Simple.reuseAction_reuseA, hrA, hcr]
      · show (Ext.reuseDataX (Ext.reuseActionX x a ex) d ex1).reuseD ++ [t - ex1.created] =
          (Simple.reuseData (Simple.reuseAction s a e) d e1).reuseD ++ [t - e1.created]
        rw [Ext.reuseDataX_reuseD, Ext.reuseActionX_reuseD, Simple.reuseData_reuseD,
            Simple.reuseAction_reuseD, hrD, hcr1]
      · show (Ext.reuseDataX (Ext.reuseActionX x a ex) d ex1).firstTime =
          (Simple.reuseData (Simple.reuseAction s a e) d e1).firstTime
        simp [hF]
      · show (Ext.reuseDataX (Ext.reuseActionX x a ex) d ex1).lastTime =
          (Simple.reuseData (Simple.reuseAction s a e) d e1).lastTime
        simp [hL]
      · show (Ext.reuseDataX (Ext.reuseActionX x a ex) d ex1).cache =
          (Simple.reuseData (Simple.reuseAction s a e) d e1).cache
        simp [hC]
      · show heapR (Simple.reuseData (Simple.reuseAction s a e) d e1).heap
          (((Ext.reuseDataX (Ext.reuseActionX x a ex) d ex1).heap.set a
             ({ ex with lastReused := t } : Ext.entry)).set d
             ({ ex1 with lastReused := t } : Ext.entry))
        rw [hsheap, hxheap]
        exact heapR_set
          (heapR_set hH (show entRel { e with reused := true } { ex with lastReused := t } from
            ⟨hcr, hsz, hdat, iff_of_true ht rfl⟩))
          (show entRel { e1 with reused := true } { ex1 with lastReused := t } from
            ⟨hcr1, hsz1, hdat1, iff_of_true ht rfl⟩)


/-- One scanning step preserves the coupling, provided the line's timestamp
is not the literal 0 (the extended variant's lastReused sentinel). Both
variants parse and dispatch identically, so they fail with the same fatal
error or both succeed with coupled states. -/
theorem step_rel {s : Simple.State} {x : Ext.State} (hw : Simple.WF s) (hr : StRel s x)
    {l : String} (hnz : tsNZ l) :
    (∃ er, Simple.processLine s l = .error er ∧ Ext.processLine x l = .error er) ∨
    (∃ s' x', Simple.processLine s l = .ok s' ∧ Ext.processLine x l = .ok x' ∧
      Simple.WF s' ∧ StRel s' x') := by
  unfold Simple.processLine Ext.processLine
  by_cases h0 : (fields l).length = 0
  · rw [if_pos h0, if_pos h0]
    exact Or.inr ⟨s, x, rfl, rfl, hw, hr⟩
  · rw [if_neg h0, if_neg h0]
    by_cases h1 : (fields l).length < 3 ∨ ((fields l).getD 1 "" = "put" ∧ (fields l).length ≠ 5)
    · rw [if_pos h1, if_pos h1]
      exact Or.inl ⟨_, rfl, rfl⟩
    · rw [if_neg h1, if_neg h1]
      rcases hp : parseInt ((fields l).getD 0 "") with _ | t
      · simp only [hp]
        exact Or.inl ⟨_, rfl, rfl⟩
      · simp only [hp]
        by_cases h2 : (fields l).getD 1 "" = "put"
        · rw [if_pos h2, if_pos h2]
          rcases hq : parseInt ((fields l).getD 4 "") with _ | sz
          · simp only [hq]
            exact Or.inl ⟨_, rfl, rfl⟩
          · simp only [hq]
            refine Or.inr ⟨_, _, rfl, rfl, ?_, ?_⟩
            · exact Simple.doPut_WF (Simple.touch_WF hw t) t sz _ _
            · exact doPut_rel (touch_rel hr t) t sz _ _
        · rw [if_neg h2, if_neg h2]
          by_cases h3 : (fields l).getD 1 "" = "get" ∨ (fields l).getD 1 "" = "miss"
          · rw [if_pos h3, if_pos h3]
            have ht : t ≠ 0 := by
              intro hc
              rw [hc] at hp
              exact hnz hp
            obtain ⟨s', x', hs', hx', hw', hr'⟩ :=
              doGet_rel (Simple.touch_WF hw t) (touch_rel hr t) ht ((fields l).getD 2 "")
            exact Or.inr ⟨s', x', hs', hx', hw', hr'⟩
          · rw [if_neg h3, if_neg h3]
            exact Or.inr ⟨_, _, rfl, rfl, Simple.touch_WF hw t, touch_rel hr t⟩

/-- The zero states of the two variants are coupled. -/
theorem StRel_init : StRel Simple.initState Ext.initState :=
  ⟨rfl, rfl, rfl, rfl, rfl, rfl, rfl, rfl, rfl, List.Forall₂.nil⟩

/-- The coupling lifted through the whole scanning loop (timestamps all
nonzero): the two variants abort with the same fatal error, or both finish
with coupled states. -/
theorem processLines_rel {lines : List String} : ∀ {s : Simple.State} {x : Ext.State},
    Simple.WF s → StRel s x → (∀ l ∈ lines, tsNZ l) →
    (∃ er, Simple.processLines s lines = .error er ∧
      Ext.processLines x lines = .error er) ∨
    (∃ s' x', Simple.processLines s lines = .ok s' ∧ Ext.processLines x lines = .ok x' ∧
      Simple.WF s' ∧ StRel s' x') := by
  induction lines with
  | nil =>
    intro s x hw hr _
    exact Or.inr ⟨s, x, rfl, rfl, hw, hr⟩
  | cons l ls ih =>
    intro s x hw hr hnz
    rcases step_rel hw hr (hnz l (List.mem_cons_self l ls)) with
      ⟨er, hse, hxe⟩ | ⟨s1, x1, hs1, hx1, hw1, hr1⟩
    · refine Or.inl ⟨er, ?_, ?_⟩
      · simp only [Simple.processLines, hse]
      · simp only [Ext.processLines, hxe]
    · rcases ih hw1 hr1 (fun m hm => hnz m (List.mem_cons_of_mem l hm)) with
        ⟨er, hse, hxe⟩ | ⟨s2, x2, hs2, hx2, hw2, hr2⟩
      · refine Or.inl ⟨er, ?_, ?_⟩
        · simp only [Simple.processLines, hs1]
          exact hse
        · simp only [Ext.processLines, hx1]
          exact hxe
      · refine Or.inr ⟨s2, x2, ?_, ?_, hw2, hr2⟩
        · simp only [Simple.processLines, hs1]
          exact hs2
        · simp only [Ext.processLines, hx1]
          exact hx2


/-- C2.  Reuse accounting, settled per variant.  (a) In the simple variant,
after any successful scan each total-reused accumulator equals the sum of
the sizes of the entries whose reused flag is set, so every reused entry is
counted exactly once with its own size.  (b) Every simple-variant scanning
step keeps `created`/`size`/`data` of every entry unchanged and moves the
reused flag only from false to true, so the transition happens at most once
per entry and the increment occurs exactly at it.  (c) A get/miss on an
action key whose action and data entries are both already reused leaves the
state unchanged except for appending one new latency sample to each sample
sequence.  (d) In the extended variant — whose reused state is the
`lastReused ≠ 0` sentinel — the same accounting identity holds for every
log all of whose timestamps are nonzero; without that restriction it fails
(see the counterexample: a get at time 0 stores `lastReused = 0` back, so a
later get increments the accumulator again). -/
theorem claim_C2_reuse_once (lines : List String) :
    (∀ s : Simple.State, Simple.scanLog lines = .ok s →
       s.totalReusedA = Simple.reusedSumA s.heap ∧
       s.totalReusedD = Simple.reusedSumD s.heap) ∧
    (∀ (s : Simple.State) (l : String) (s' : Simple.State),
       Simple.processLine s l = .ok s' → Simple.heapSim s.heap s'.heap) ∧
    (∀ (s : Simple.State) (t : Int) (k : String) (a : Nat) (e : Simple.entry)
       (d : Nat) (e1 : Simple.entry),
       List.lookup (k ++ "-a") s.cache = some a → s.heap[a]? = some e →
       e.data = some d → (Simple.reuseAction s a e).heap[d]? = some e1 →
       e.reused = true → e1.reused = true →
       Simple.doGet s t k = .ok { s with
         reuseA := s.reuseA ++ [t - e.created]
         reuseD := s.reuseD ++ [t - e1.created] }) ∧
    ((∀ l ∈ lines, tsNZ l) → ∀ x : Ext.State, Ext.scanLog lines = .ok x →
       x.totalReusedA = Ext.reusedSumA x.heap ∧
       x.totalReusedD = Ext.reusedSumD x.heap) := by
  refine ⟨?_, ?_, ?_, ?_⟩
  · intro s h
    exact (Simple.scanLog_WF_SumInv h).2
  · intro s l s' h
    exact Simple.processLine_heapSim h
  · intro s t k a e d e1 hl he hd hge1 hre hre1
    have hr : Simple.reuseData (Simple.reuseAction s a e) d e1 = s := by
      unfold Simple.reuseAction Simple.reuseData
      rw [if_pos hre, if_pos hre1]
    unfold Simple.doGet
    simp only [hl, he, hd, hge1, hr]
  · intro hnz x hx
    have hx2 : Ext.processLines Ext.initState lines = .ok x := hx
    rcases processLines_rel Simple.WF_init StRel_init hnz with
      ⟨er, hse, hxe⟩ | ⟨s', x', hs', hx', hw', hr'⟩
    · rw [hxe] at hx2
      cases hx2
    · rw [hx'] at hx2
      injection hx2 with hxx
      obtain ⟨hA, hRA, hD, hRD, hrA, hrD, hF, hL, hC, hH⟩ := hr'
      have hsum := (Simple.scanLog_WF_SumInv hs').2
      have hsums := heapR_sums hH
      constructor
      · rw [← hxx, hRA, hsum.1, hsums.1]
      · rw [← hxx, hRD, hsum.2, hsums.2]

/-- C2 witness: the extended-variant accounting identity at the concrete
all-nonzero log of the spec's example, with the scan result evaluated. -/
theorem claim_C2_reuse_once_witness :
    Ext.scanLog ["1000 put A D 500", "1010 get A", "1020 get A"] = .ok
      ({ totalA := 154, totalReusedA := 154, totalD := 500, totalReusedD := 500
         reuseA := [10, 20], reuseD := [10, 20]
         reuseDeltaA := [10, 10], reuseDeltaD := [10, 10]
         firstTime := 1000, lastTime := 1020
         cache := [("A-a", 1), ("D-d", 0)]
         heap := [{ created := 1000, lastReused := 1020, size := 500, reused := false,
                    data := none },
                  { created := 1000, lastReused := 1020, size := 154, reused := false,
                    data := some 0 }] } : Ext.State) ∧
    ({ totalA := 154, totalReusedA := 154, totalD := 500, totalReusedD := 500
       reuseA := [10, 20], reuseD := [10, 20]
       reuseDeltaA := [10, 10], reuseDeltaD := [10, 10]
       firstTime := 1000, lastTime := 1020
       cache := [("A-a", 1), ("D-d", 0)]
       heap := [{ created := 1000, lastReused := 1020, size := 500, reused := false,
                  data := none },
                { created := 1000, lastReused := 1020, size := 154, reused := false,
                  data := some 0 }] } : Ext.State).totalReusedA =
      Ext.reusedSumA
        ({ totalA := 154, totalReusedA := 154, totalD := 500, totalReusedD := 500
           reuseA := [10, 20], reuseD := [10, 20]
           reuseDeltaA := [10, 10], reuseDeltaD := [10, 10]
           firstTime := 1000, lastTime := 1020
           cache := [("A-a", 1), ("D-d", 0)]
           heap := [{ created := 1000, lastReused := 1020, size := 500, reused := false,
                      data := none },
                    { created := 1000, lastReused := 1020, size := 154, reused := false,
                      data := some 0 }] } : Ext.State).heap :=
  ⟨rfl,
   ((claim_C2_reuse_once ["1000 put A D 500", "1010 get A", "1020 get A"]).2.2.2
     (by decide) _ rfl).1⟩

/-- C2 counterexample: in the extended variant, on a log whose events all
carry timestamp 0, the single action entry (size 154, the only entry ever
put) has its size added to `totalReusedA` twice — once per get — because
the first get writes the sentinel value `lastReused = 0` back.  So the
accumulator is 308, exceeding the total action bytes 154: the increment is
not "exactly once per entry". -/
theorem claim_C2_counterexample :
    (Ext.scanLog ["0 put A D 5", "0 get A", "0 get A"]).toOption.map
      (fun x => (x.totalA, x.totalReusedA)) = some ((154 : Int), (308 : Int)) ∧
    ¬ ((308 : Int) ≤ 154) :=
  ⟨rfl, by decide⟩

/-- C3 (amended).  For every log all of whose timestamps are nonzero, the
two parser variants agree completely on the base outputs: they fail with
the same fatal error, or both succeed with identical `totalA`,
`totalReusedA`, `totalD`, `totalReusedD`, identical `reuseA`/`reuseD`
sample sequences in the same append order, and identical
`firstTime`/`lastTime`; the extended variant's delta samples are purely
additive.  (Without the nonzero-timestamp restriction the base outputs can
differ — see the counterexample.) -/
theorem claim_C3_variant_equivalence (lines : List String)
    (hnz : ∀ l ∈ lines, tsNZ l) :
    (∃ er, Simple.scanLog lines = .error er ∧ Ext.scanLog lines = .error er) ∨
    (∃ (s : Simple.State) (x : Ext.State), Simple.scanLog lines = .ok s ∧
      Ext.scanLog lines = .ok x ∧
      x.totalA = s.totalA ∧ x.totalReusedA = s.totalReusedA ∧
      x.totalD = s.totalD ∧ x.totalReusedD = s.totalReusedD ∧
      x.reuseA = s.reuseA ∧ x.reuseD = s.reuseD ∧
      x.firstTime = s.firstTime ∧ x.lastTime = s.lastTime) := by
  rcases processLines_rel Simple.WF_init StRel_init hnz with
    ⟨er, hse, hxe⟩ | ⟨s', x', hs', hx', hw', hr'⟩
  · exact Or.inl ⟨er, hse, hxe⟩
  · obtain ⟨hA, hRA, hD, hRD, hrA, hrD, hF, hL, hC, hH⟩ := hr'
    exact Or.inr ⟨s', x', hs', hx', hA, hRA, hD, hRD, hrA, hrD, hF, hL⟩

/-- C3 witness: the equivalence instantiated at a concrete nonzero-time
log. -/
theorem claim_C3_variant_equivalence_witness :
    (∃ er, Simple.scanLog ["5 put A D 7", "9 get A"] = .error er ∧
      Ext.scanLog ["5 put A D 7", "9 get A"] = .error er) ∨
    (∃ (s : Simple.State) (x : Ext.State),
      Simple.scanLog ["5 put A D 7", "9 get A"] = .ok s ∧
      Ext.scanLog ["5 put A D 7", "9 get A"] = .ok x ∧
      x.totalA = s.totalA ∧ x.totalReusedA = s.totalReusedA ∧
      x.totalD = s.totalD ∧ x.totalReusedD = s.totalReusedD ∧
      x.reuseA = s.reuseA ∧ x.reuseD = s.reuseD ∧
      x.firstTime = s.firstTime ∧ x.lastTime = s.lastTime) :=
  claim_C3_variant_equivalence ["5 put A D 7", "9 get A"] (by decide)

/-- C3 counterexample: on the all-zero-timestamp log the two variants both
succeed but report different `totalReusedA` (and `totalReusedD`): simple
154, extended 308.  The delta tracking is therefore not purely additive on
such logs. -/
theorem claim_C3_counterexample :
    (Simple.scanLog ["0 put A D 5", "0 get A", "0 get A"]).toOption.map
      Simple.State.totalReusedA = some 154 ∧
    (Ext.scanLog ["0 put A D 5", "0 get A", "0 get A"]).toOption.map
      Ext.State.totalReusedA = some 308 ∧
    some (308 : Int) ≠ some (154 : Int) :=
  ⟨rfl, rfl, by decide⟩


namespace Ext

theorem WF_init_x : WF initState := by
  refine ⟨?_, ?_, ?_⟩
  · intro k a h
    cases h
  · intro k d h
    cases h
  · intro a e h d hd
    cases h

theorem touch_WF_x {s : State} (hw : WF s) (t : Int) : WF (touch s t) :=
  ⟨hw.cacheA, hw.cacheD, hw.ptrOK⟩

theorem putData_WF_x {s : State} (hw : WF s) (t sz : Int) (k : String) :
    WF (putData s t sz k).1 ∧
    ∃ e1 : entry, (putData s t sz k).1.heap[(putData s t sz k).2]? = some e1 ∧
      e1.data = none := by
  unfold putData
  cases hl : List.lookup (k ++ "-d") s.cache with
  | some a => exact ⟨hw, hw.cacheD k a hl⟩
  | none =>
    refine ⟨⟨?_, ?_, ?_⟩, ?_⟩
    · intro k' a' h'
      rw [lookup_cons_ne (append_a_ne_append_d k' k)] at h'
      obtain ⟨e, he, hd⟩ := hw.cacheA k' a' h'
      exact ⟨e, getElem?_append_some he, hd⟩
    · intro k' d' h'
      by_cases hk : k' ++ "-d" = k ++ "-d"
      · rw [hk, lookup_cons_self] at h'
        cases h'
        exact ⟨_, List.getElem?_concat_length s.heap _, rfl⟩
      · rw [lookup_cons_ne hk] at h'
        obtain ⟨e, he, hd⟩ := hw.cacheD k' d' h'
        exact ⟨e, getElem?_append_some he, hd⟩
    · intro a' e' he' d' hd'
      rcases getElem?_concat_cases he' with h1 | ⟨rfl, rfl⟩
      · obtain ⟨e1, he1, h1d⟩ := hw.ptrOK a' e' h1 d' hd'
        exact ⟨e1, getElem?_append_some he1, h1d⟩
      · cases hd'
    · exact ⟨_, List.getElem?_concat_length s.heap _, rfl⟩

theorem putAction_WF_x {s : State} (hw : WF s) {d : Nat} {e1 : entry}
    (hd : s.heap[d]? = some e1) (hd1 : e1.data = none) (t : Int) (k : String) :
    WF (putAction s t d k) := by
  unfold putAction
  cases hl : List.lookup (k ++ "-a") s.cache with
  | some a => exact hw
  | none =>
    refine ⟨?_, ?_, ?_⟩
    · intro k' a' h'
      by_cases hk : k' ++ "-a" = k ++ "-a"
      · rw [hk, lookup_cons_self] at h'
        cases h'
        exact ⟨_, List.getElem?_concat_length s.heap _, by simp⟩
      · rw [lookup_cons_ne hk] at h'
        obtain ⟨e, he, hdne⟩ := hw.cacheA k' a' h'
        exact ⟨e, getElem?_append_some he, hdne⟩
    · intro k' d' h'
      rw [lookup_cons_ne (append_d_ne_append_a k' k)] at h'
      obtain ⟨e, he, hdn⟩ := hw.cacheD k' d' h'
      exact ⟨e, getElem?_append_some he, hdn⟩
    · intro a' e' he' d0 hd0
      rcases getElem?_concat_cases he' with h1 | ⟨rfl, rfl⟩
      · obtain ⟨ee, hee, heed⟩ := hw.ptrOK a' e' h1 d0 hd0
        exact ⟨ee, getElem?_append_some hee, heed⟩
      · cases hd0
        exact ⟨e1, getElem?_append_some hd, hd1⟩

theorem doPut_WF_x {s : State} (hw : WF s) (t sz : Int) (a d : String) :
    WF (doPut s t sz a d) := by
  obtain ⟨h1, e1, he1, hd1⟩ := putData_WF_x hw t sz d
  exact putAction_WF_x h1 he1 hd1 t a

theorem WF_update_x {s s' : State} (hw : WF s) {i : Nat} {e e' : entry}
    (he : s.heap[i]? = some e) (hdata : e'.data = e.data)
    (hc : s'.cache = s.cache) (hh : s'.heap = s.heap.set i e') : WF s' := by
  have hilt : i < s.heap.length := lt_length_of_getElem?_some he
  have hget : ∀ j : Nat, s'.heap[j]? = if j = i then some e' else s.heap[j]? := by
    intro j
    by_cases hj : j = i
    · subst hj
      rw [hh, if_pos rfl, List.getElem?_set_self hilt]
    · rw [hh, if_neg hj, List.getElem?_set_ne (Ne.symm hj)]
  refine ⟨?_, ?_, ?_⟩
  · intro k a h'
    rw [hc] at h'
    obtain ⟨ea, hea, hda⟩ := hw.cacheA k a h'
    rw [hget a]
    by_cases ha : a = i
    · subst ha
      rw [he] at hea
      cases hea
      exact ⟨e', if_pos rfl, by rw [hdata]; exact hda⟩
    · rw [if_neg ha]
      exact ⟨ea, hea, hda⟩
  · intro k d h'
    rw [hc] at h'
    obtain ⟨ed, hed, hdd⟩ := hw.cacheD k d h'
    rw [hget d]
    by_cases hd : d = i
    · subst hd
      rw [he] at hed
      cases hed
      exact ⟨e', if_pos rfl, by rw [hdata]; exact hdd⟩
    · rw [if_neg hd]
      exact ⟨ed, hed, hdd⟩
  · intro a ea hea d hd
    rw [hget a] at hea
    have step : ∀ e1 : entry, s.heap[d]? = some e1 → e1.data = none →
        ∃ e2 : entry, s'.heap[d]? = some e2 ∧ e2.data = none := by
      intro e1 he1 h1d
      rw [hget d]
      by_cases hdi : d = i
      · subst hdi
        rw [he] at he1
        cases he1
        exact ⟨e', if_pos rfl, by rw [hdata]; exact h1d⟩
      · rw [if_neg hdi]
        exact ⟨e1, he1, h1d⟩
    by_cases ha : a = i
    · subst ha
      rw [if_pos rfl] at hea
      cases hea
      obtain ⟨e1, he1, h1d⟩ := hw.ptrOK _ e he d (by rw [← hdata]; exact hd)
      exact step e1 he1 h1d
    · rw [if_neg ha] at hea
      obtain ⟨e1, he1, h1d⟩ := hw.ptrOK a ea hea d hd
      exact step e1 he1 h1d

theorem WF_of_eq_x {y z : State} (hz : WF z) (hc : y.cache = z.cache)
    (hh : y.heap = z.heap) : WF y := by
  refine ⟨?_, ?_, ?_⟩
  · intro k a h
    rw [hc] at h
    rw [hh]
    exact hz.cacheA k a h
  · intro k d h
    rw [hc] at h
    rw [hh]
    exact hz.cacheD k d h
  · intro a e he d hd
    rw [hh] at he ⊢
    exact hz.ptrOK a e he d hd

theorem doGet_ok_x {x : State} (hw : WF x) (t : Int) (k : String) :
    ∃ x' : State, doGet x t k = .ok x' ∧ WF x' := by
  cases hl : List.lookup (k ++ "-a") x.cache with
  | none =>
    refine ⟨x, ?_, hw⟩
    unfold doGet
    rw [hl]
  | some a =>
    obtain ⟨e, he, hdne⟩ := hw.cacheA k a hl
    cases hd : e.data with
    | none => exact absurd hd hdne
    | some d =>
      obtain ⟨e1, he1, h1d⟩ := hw.ptrOK a e he d hd
      have hda : d ≠ a := by
        intro hc
        subst hc
        rw [he] at he1
        cases he1
        exact hdne h1d
      have hge1 : (reuseActionX x a e).heap[d]? = some e1 := by
        unfold reuseActionX
        split
        · rw [List.getElem?_set_ne (Ne.symm hda)]
          exact he1
        · exact he1
      have heq := doGet_eq t hl he hd hge1
      refine ⟨_, heq, ?_⟩
      have hM : WF ({ x with
          heap := x.heap.set a ({ e with lastReused := t } : entry) } : State) :=
        WF_update_x hw he
          (show ({ e with lastReused := t } : entry).data = e.data from rfl) rfl rfl
      have he1' : ({ x with
          heap := x.heap.set a ({ e with lastReused := t } : entry) } :
            State).heap[d]? = some e1 := by
        show (x.heap.set a ({ e with lastReused := t } : entry))[d]? = some e1
        rw [List.getElem?_set_ne (Ne.symm hda)]
        exact he1
      have hfin : WF ({ x with
          heap := (x.heap.set a ({ e with lastReused := t } : entry)).set d
            ({ e1 with lastReused := t } : entry) } : State) :=
        WF_update_x hM he1'
          (show ({ e1 with lastReused := t } : entry).data = e1.data from rfl) rfl rfl
      exact WF_of_eq_x hfin (by simp) (@reuse_stages_heap_x x a d e e1 t hda)

theorem processLine_WF_x {x x' : State} {l : String} (hw : WF x)
    (h : processLine x l = .ok x') : WF x' := by
  unfold processLine at h
  split at h
  · cases h
    exact hw
  · split at h
    · exact Except.noConfusion h
    · split at h
      · exact Except.noConfusion h
      · next t hp =>
        split at h
        · split at h
          · exact Except.noConfusion h
          · cases h
            exact doPut_WF_x (touch_WF_x hw t) _ _ _ _
        · split at h
          · obtain ⟨x'', heq, hw''⟩ := doGet_ok_x (touch_WF_x hw t) t _
            have hss : x'' = x' := Except.ok.inj (heq.symm.trans h)
            subst hss
            exact hw''
          · cases h
            exact touch_WF_x hw t

theorem processLine_no_nilDeref_x {x : State} (hw : WF x) :
    ∀ l, processLine x l ≠ .error .nilDeref := by
  intro l h
  unfold processLine at h
  split at h
  · exact Except.noConfusion h
  · split at h
    · exact Err.noConfusion (Except.error.inj h)
    · split at h
      · exact Err.noConfusion (Except.error.inj h)
      · next t hp =>
        split at h
        · split at h
          · exact Err.noConfusion (Except.error.inj h)
          · exact Except.noConfusion h
        · split at h
          · obtain ⟨x'', heq, _⟩ := doGet_ok_x (touch_WF_x hw t) t _
            rw [heq] at h
            exact Except.noConfusion h
          · exact Except.noConfusion h

theorem processLines_WF_x {ls : List String} :
    ∀ {x x' : State}, WF x → processLines x ls = .ok x' → WF x' := by
  induction ls with
  | nil =>
    intro x x' hw h
    cases h
    exact hw
  | cons l rest ih =>
    intro x x' hw h
    unfold processLines at h
    cases hpl : processLine x l with
    | error e =>
      rw [hpl] at h
      exact Except.noConfusion h
    | ok x1 =>
      rw [hpl] at h
      exact ih (processLine_WF_x hw hpl) h

theorem scanLog_WF_x {lines : List String} {x : State} (h : scanLog lines = .ok x) :
    WF x :=
  processLines_WF_x WF_init_x h

end Ext


/-- C9.  In both parser variants, after any completed scan every registered
action entry has a non-nil data pointer to a valid heap entry, and
processing one more line of any content can never hit the nil-dereference
fault: the get/miss dereference chain `e.data.reused` / `e.data.size` /
`e.data.created` / `e.data.lastReused` is always total. -/
theorem claim_C9_data_never_nil (lines : List String) :
    (∀ s : Simple.State, Simple.scanLog lines = .ok s →
       (∀ (k : String) (a : Nat), List.lookup (k ++ "-a") s.cache = some a →
          ∃ e : Simple.entry, s.heap[a]? = some e ∧ e.data ≠ none ∧
            ∃ (d : Nat) (e1 : Simple.entry), e.data = some d ∧ s.heap[d]? = some e1) ∧
       (∀ l, Simple.processLine s l ≠ .error .nilDeref)) ∧
    (∀ x : Ext.State, Ext.scanLog lines = .ok x →
       (∀ (k : String) (a : Nat), List.lookup (k ++ "-a") x.cache = some a →
          ∃ e : Ext.entry, x.heap[a]? = some e ∧ e.data ≠ none ∧
            ∃ (d : Nat) (e1 : Ext.entry), e.data = some d ∧ x.heap[d]? = some e1) ∧
       (∀ l, Ext.processLine x l ≠ .error .nilDeref)) := by
  constructor
  · intro s h
    obtain ⟨hw, _⟩ := Simple.scanLog_WF_SumInv h
    constructor
    · intro k a hl
      obtain ⟨e, he, hdne⟩ := hw.cacheA k a hl
      cases hd : e.data with
      | none => exact absurd hd hdne
      | some d =>
        obtain ⟨e1, he1, _⟩ := hw.ptrOK a e he d hd
        exact ⟨e, he, hdne, d, e1, hd, he1⟩
    · exact Simple.processLine_no_nilDeref hw
  · intro x h
    have hw := Ext.scanLog_WF_x h
    constructor
    · intro k a hl
      obtain ⟨e, he, hdne⟩ := hw.cacheA k a hl
      cases hd : e.data with
      | none => exact absurd hd hdne
      | some d =>
        obtain ⟨e1, he1, _⟩ := hw.ptrOK a e he d hd
        exact ⟨e, he, hdne, d, e1, hd, he1⟩
    · exact Ext.processLine_no_nilDeref_x hw

/-- Witness for C9 on the one-put log `["5 put A D 7"]`, for both variants:
the action entry at address 1 dereferences cleanly, and a follow-up get
cannot fault. -/
theorem claim_C9_data_never_nil_witness :
    (∃ e : Simple.entry,
       ({ totalA := 154, totalReusedA := 0, totalD := 7, totalReusedD := 0
          reuseA := [], reuseD := [], firstTime := 5, lastTime := 5
          cache := [("A-a", 1), ("D-d", 0)]
          heap := [{ created := 5, size := 7, reused := false, data := none },
                   { created := 5, size := 154, reused := false, data := some 0 }] } :
           Simple.State).heap[1]? = some e ∧ e.data ≠ none ∧
       ∃ (d : Nat) (e1 : Simple.entry), e.data = some d ∧
         ({ totalA := 154, totalReusedA := 0, totalD := 7, totalReusedD := 0
            reuseA := [], reuseD := [], firstTime := 5, lastTime := 5
            cache := [("A-a", 1), ("D-d", 0)]
            heap := [{ created := 5, size := 7, reused := false, data := none },
                     { created := 5, size := 154, reused := false, data := some 0 }] } :
             Simple.State).heap[d]? = some e1) ∧
    Simple.processLine
      { totalA := 154, totalReusedA := 0, totalD := 7, totalReusedD := 0
        reuseA := [], reuseD := [], firstTime := 5, lastTime := 5
        cache := [("A-a", 1), ("D-d", 0)]
        heap := [{ created := 5, size := 7, reused := false, data := none },
                 { created := 5, size := 154, reused := false, data := some 0 }] }
      "9 get A" ≠ .error .nilDeref ∧
    (∃ e : Ext.entry,
       ({ totalA := 154, totalReusedA := 0, totalD := 7, totalReusedD := 0
          reuseA := [], reuseD := [], reuseDeltaA := [], reuseDeltaD := []
          firstTime := 5, lastTime := 5
          cache := [("A-a", 1), ("D-d", 0)]
          heap := [{ created := 5, lastReused := 0, size := 7, reused := false,
                     data := none },
                   { created := 5, lastReused := 0, size := 154, reused := false,
                     data := some 0 }] } :
           Ext.State).heap[1]? = some e ∧ e.data ≠ none ∧
       ∃ (d : Nat) (e1 : Ext.entry), e.data = some d ∧
         ({ totalA := 154, totalReusedA := 0, totalD := 7, totalReusedD := 0
            reuseA := [], reuseD := [], reuseDeltaA := [], reuseDeltaD := []
            firstTime := 5, lastTime := 5
            cache := [("A-a", 1), ("D-d", 0)]
            heap := [{ created := 5, lastReused := 0, size := 7, reused := false,
                       data := none },
                     { created := 5, lastReused := 0, size := 154, reused := false,
                       data := some 0 }] } :
             Ext.State).heap[d]? = some e1) ∧
    Ext.processLine
      { totalA := 154, totalReusedA := 0, totalD := 7, totalReusedD := 0
        reuseA := [], reuseD := [], reuseDeltaA := [], reuseDeltaD := []
        firstTime := 5, lastTime := 5
        cache := [("A-a", 1), ("D-d", 0)]
        heap := [{ created := 5, lastReused := 0, size := 7, reused := false,
                   data := none },
                 { created := 5, lastReused := 0, size := 154, reused := false,
                   data := some 0 }] }
      "9 get A" ≠ .error .nilDeref :=
  ⟨((claim_C9_data_never_nil ["5 put A D 7"]).1 _ rfl).1 "A" 1 rfl,
   ((claim_C9_data_never_nil ["5 put A D 7"]).1 _ rfl).2 "9 get A",
   ((claim_C9_data_never_nil ["5 put A D 7"]).2 _ rfl).1 "A" 1 rfl,
   ((claim_C9_data_never_nil ["5 put A D 7"]).2 _ rfl).2 "9 get A"⟩


end GoCacheLogStat
